import Mathlib

/-! # On-the-fly matrix-vector accumulation of Kyber768 (m4fspeed): `matacc.c`

A shallow embedding of `matacc_cache32` and `matacc_opt32`
(`crypto_kem/kyber768/m4fspeed/matacc.c`).

The two C functions only orchestrate calls to collaborators that live in other
files: the stream primitive (`xof_absorb`, `xof_squeezeblocks`), the table
`zetas` and the six assembly kernels `matacc_asm_{cache,opt}_{16_32,32_32,32_16}`.
Those are the fields of `Ext`; each field takes the contents of every object the
C call passes (in the order of the C call) and returns the contents of every
object the callee may write through a non-`const` pointer.

Memory is explicit: `Mem` holds the objects the functions can reach (the caller's
`r`, `b`, `b_prime`, `seed`, and the locals `buf`, `state`, `c`, `r_tmp`, whose
contents at entry are arbitrary), plus a ghost `log` of the collaborator calls in
program order.  The caller's objects are assumed pairwise disjoint.
-/

namespace Matacc

/-! ## Data model -/

/-- A byte buffer (`unsigned char[]`). -/
abbrev Bytes := List Nat

/-- Contents of an `xof_state` object. -/
abbrev XofState := List Nat

/-- The C type `poly`: `typedef struct { int16_t coeffs[KYBER_N]; } poly;`. -/
structure poly where
  coeffs : List Int
  deriving DecidableEq, Repr, Inhabited

/-- The C type `polyvec`: `typedef struct { poly vec[KYBER_K]; } polyvec;`. -/
structure polyvec where
  vec : List poly
  deriving DecidableEq, Repr, Inhabited

/-- Rank of the kyber768 parameter set. -/
def KYBER_K : Nat := 3

/-- The three width stages of the accumulation: `16_32`, `32_32`, `32_16`. -/
inductive Stage where
  | s16_32
  | s32_32
  | s32_16
  deriving DecidableEq, Repr

/-- Which kernel family a call belongs to. -/
inductive Mode where
  | cache
  | opt
  deriving DecidableEq, Repr

/-- One call to a collaborator, as recorded in the ghost log.
`absorb x y out`: `xof_absorb(&state, seed, x, y)` left `out` in `state`;
`squeeze n src out`: `xof_squeezeblocks(buf, n, &state)` ran on state `src` and left
`out` in `buf`;
`kernel m s j blk`: the kernel of mode `m`, stage `s` was called with
`b->vec[j].coeffs`, `b_prime->vec[j].coeffs` and with `blk` in `buf`. -/
inductive Event where
  | absorb (x y : Nat) (out : XofState)
  | squeeze (nblocks : Nat) (src : XofState) (out : Bytes)
  | kernel (m : Mode) (s : Stage) (j : Nat) (blk : Bytes)
  deriving DecidableEq, Repr

/-- Objects a cache kernel of stage `16_32` or `32_32` may write:
`r_tmp`, `c`, `buf`, `*state` and the cache slot. -/
structure OutCache32 where
  r_tmp : List Int
  c : List Int
  buf : Bytes
  state : XofState
  b_prime : List Int
  deriving DecidableEq, Repr

/-- Objects the cache kernel of stage `32_16` may write:
`r->coeffs`, `c`, `buf`, `*state`, the cache slot and `r_tmp`. -/
structure OutCache16 where
  r : List Int
  c : List Int
  buf : Bytes
  state : XofState
  b_prime : List Int
  r_tmp : List Int
  deriving DecidableEq, Repr

/-- Objects an opt kernel of stage `16_32` or `32_32` may write
(`b_prime` is `const` in `matacc_opt32`). -/
structure OutOpt32 where
  r_tmp : List Int
  c : List Int
  buf : Bytes
  state : XofState
  deriving DecidableEq, Repr

/-- Objects the opt kernel of stage `32_16` may write. -/
structure OutOpt16 where
  r : List Int
  c : List Int
  buf : Bytes
  state : XofState
  r_tmp : List Int
  deriving DecidableEq, Repr

/-- The collaborators of `matacc.c`, which are defined outside this file.
Argument order follows the C calls. -/
structure Ext where
  /-- The constant `XOF_BLOCKBYTES`, the length of one squeezed block. -/
  XOF_BLOCKBYTES : Nat
  /-- The call `xof_absorb(&state, seed, x, y)`: prior `*state`, `seed`, `x`, `y`. -/
  xof_absorb : XofState → Bytes → Nat → Nat → XofState
  /-- The call `xof_squeezeblocks(buf, nblocks, &state)`: prior `buf`, `nblocks`,
  `*state`. -/
  xof_squeezeblocks : Bytes → Nat → XofState → Bytes × XofState
  /-- The table `zetas`. -/
  zetas : List Int
  /-- The call `matacc_asm_cache_16_32(r_tmp, b, c, buf, zetas, &state, b_prime)`. -/
  matacc_asm_cache_16_32 :
    List Int → List Int → List Int → Bytes → List Int → XofState → List Int → OutCache32
  /-- The call `matacc_asm_cache_32_32(r_tmp, b, c, buf, zetas, &state, b_prime)`. -/
  matacc_asm_cache_32_32 :
    List Int → List Int → List Int → Bytes → List Int → XofState → List Int → OutCache32
  /-- The call `matacc_asm_cache_32_16(r, b, c, buf, zetas, &state, b_prime, r_tmp)`. -/
  matacc_asm_cache_32_16 :
    List Int → List Int → List Int → Bytes → List Int → XofState → List Int → List Int →
      OutCache16
  /-- The call `matacc_asm_opt_16_32(r_tmp, b, c, buf, &state, b_prime)`. -/
  matacc_asm_opt_16_32 :
    List Int → List Int → List Int → Bytes → XofState → List Int → OutOpt32
  /-- The call `matacc_asm_opt_32_32(r_tmp, b, c, buf, &state, b_prime)`. -/
  matacc_asm_opt_32_32 :
    List Int → List Int → List Int → Bytes → XofState → List Int → OutOpt32
  /-- The call `matacc_asm_opt_32_16(r, b, c, buf, &state, b_prime, r_tmp)`. -/
  matacc_asm_opt_32_16 :
    List Int → List Int → List Int → Bytes → XofState → List Int → List Int → OutOpt16

/-- The memory reachable from one call. -/
structure Mem where
  /-- The output polynomial `*r`. -/
  r : poly
  /-- The input vector `*b` (`const`). -/
  b : polyvec
  /-- The cache vector `*b_prime`. -/
  b_prime : polyvec
  /-- The bytes of `seed` (`const`). -/
  seed : Bytes
  /-- Local `unsigned char buf[XOF_BLOCKBYTES+2]`. -/
  buf : Bytes
  /-- Local `xof_state state`. -/
  state : XofState
  /-- Local `int16_t c[4]`. -/
  c : List Int
  /-- Local `int32_t r_tmp[KYBER_N]`. -/
  r_tmp : List Int
  /-- Ghost: collaborator calls so far, oldest first. -/
  log : List Event
  deriving DecidableEq, Repr

/-- The coefficients `v->vec[j].coeffs` (empty outside the vector, where C gives no
meaning). -/
def polyvec.slot (v : polyvec) (j : Nat) : List Int :=
  (v.vec.getD j ⟨[]⟩).coeffs

/-- The vector after `vec[j].coeffs` was overwritten with `cs`. -/
def polyvec.put (v : polyvec) (j : Nat) (cs : List Int) : polyvec :=
  ⟨v.vec.set j ⟨cs⟩⟩

/-! ## The orchestration code -/

/-- The statement `xof_absorb(&state, seed, x, y);`. -/
def do_absorb (E : Ext) (m : Mem) (x y : Nat) : Mem :=
  let st := E.xof_absorb m.state m.seed x y
  { m with state := st, log := m.log ++ [Event.absorb x y st] }

/-- The statement `xof_squeezeblocks(buf, nblocks, &state);`. -/
def do_squeeze (E : Ext) (m : Mem) (nblocks : Nat) : Mem :=
  let o := E.xof_squeezeblocks m.buf nblocks m.state
  { m with buf := o.1, state := o.2, log := m.log ++ [Event.squeeze nblocks m.state o.1] }

/-- The block that opens every stage:
```
if (transposed) xof_absorb(&state, seed, i, j);
else            xof_absorb(&state, seed, j, i);
xof_squeezeblocks(buf, 1, &state);
``` -/
def draw (E : Ext) (i : Nat) (transposed : Int) (j : Nat) (m : Mem) : Mem :=
  do_squeeze E (if transposed ≠ 0 then do_absorb E m i j else do_absorb E m j i) 1

/-- The call `matacc_asm_cache_16_32(r_tmp, b->vec[j].coeffs, c, buf, zetas, &state,
b_prime->vec[j].coeffs);`. -/
def call_cache_16_32 (E : Ext) (j : Nat) (m : Mem) : Mem :=
  let o := E.matacc_asm_cache_16_32 m.r_tmp (m.b.slot j) m.c m.buf E.zetas m.state (m.b_prime.slot j)
  { m with r_tmp := o.r_tmp, c := o.c, buf := o.buf, state := o.state,
           b_prime := m.b_prime.put j o.b_prime,
           log := m.log ++ [Event.kernel Mode.cache Stage.s16_32 j m.buf] }

/-- The call `matacc_asm_cache_32_32(r_tmp, b->vec[j].coeffs, c, buf, zetas, &state,
b_prime->vec[j].coeffs);`. -/
def call_cache_32_32 (E : Ext) (j : Nat) (m : Mem) : Mem :=
  let o := E.matacc_asm_cache_32_32 m.r_tmp (m.b.slot j) m.c m.buf E.zetas m.state (m.b_prime.slot j)
  { m with r_tmp := o.r_tmp, c := o.c, buf := o.buf, state := o.state,
           b_prime := m.b_prime.put j o.b_prime,
           log := m.log ++ [Event.kernel Mode.cache Stage.s32_32 j m.buf] }

/-- The call `matacc_asm_cache_32_16(r->coeffs, b->vec[j].coeffs, c, buf, zetas, &state,
b_prime->vec[j].coeffs, r_tmp);`. -/
def call_cache_32_16 (E : Ext) (j : Nat) (m : Mem) : Mem :=
  let o := E.matacc_asm_cache_32_16 m.r.coeffs (m.b.slot j) m.c m.buf E.zetas m.state
    (m.b_prime.slot j) m.r_tmp
  { m with r := ⟨o.r⟩, c := o.c, buf := o.buf, state := o.state,
           b_prime := m.b_prime.put j o.b_prime, r_tmp := o.r_tmp,
           log := m.log ++ [Event.kernel Mode.cache Stage.s32_16 j m.buf] }

/-- The call `matacc_asm_opt_16_32(r_tmp, b->vec[j].coeffs, c, buf, &state,
b_prime->vec[j].coeffs);`. -/
def call_opt_16_32 (E : Ext) (j : Nat) (m : Mem) : Mem :=
  let o := E.matacc_asm_opt_16_32 m.r_tmp (m.b.slot j) m.c m.buf m.state (m.b_prime.slot j)
  { m with r_tmp := o.r_tmp, c := o.c, buf := o.buf, state := o.state,
           log := m.log ++ [Event.kernel Mode.opt Stage.s16_32 j m.buf] }

/-- The call `matacc_asm_opt_32_32(r_tmp, b->vec[j].coeffs, c, buf, &state,
b_prime->vec[j].coeffs);`. -/
def call_opt_32_32 (E : Ext) (j : Nat) (m : Mem) : Mem :=
  let o := E.matacc_asm_opt_32_32 m.r_tmp (m.b.slot j) m.c m.buf m.state (m.b_prime.slot j)
  { m with r_tmp := o.r_tmp, c := o.c, buf := o.buf, state := o.state,
           log := m.log ++ [Event.kernel Mode.opt Stage.s32_32 j m.buf] }

/-- The call `matacc_asm_opt_32_16(r->coeffs, b->vec[j].coeffs, c, buf, &state,
b_prime->vec[j].coeffs, r_tmp);`. -/
def call_opt_32_16 (E : Ext) (j : Nat) (m : Mem) : Mem :=
  let o := E.matacc_asm_opt_32_16 m.r.coeffs (m.b.slot j) m.c m.buf m.state (m.b_prime.slot j) m.r_tmp
  { m with r := ⟨o.r⟩, c := o.c, buf := o.buf, state := o.state, r_tmp := o.r_tmp,
           log := m.log ++ [Event.kernel Mode.opt Stage.s32_16 j m.buf] }

/-- Lines 28-40 of `matacc_cache32`: `j = 0`, draw, first kernel. -/
def cache_first (E : Ext) (i : Nat) (transposed : Int) (m : Mem) : Mem :=
  call_cache_16_32 E 0 (draw E i transposed 0 m)

/-- The loop `for(...; j < KYBER_K - 1; j++) body` entered with the given `j`: returns
the value of `j` at exit with the memory.  The first argument bounds the number of guard
evaluations. -/
def for_loop (K : Nat) (body : Nat → Mem → Mem) : Nat → Nat → Mem → Nat × Mem
  | 0, j, m => (j, m)
  | fuel + 1, j, m =>
    if j < K - 1 then for_loop K body fuel (j + 1) (body j m) else (j, m)

/-- Lines 43-54 of `matacc_cache32`:
`for(j=1;j<KYBER_K - 1;j++) { draw; matacc_asm_cache_32_32(...); }`.  The guard is
evaluated at most `K` times. -/
def cache_loop (E : Ext) (K i : Nat) (transposed : Int) (m : Mem) : Nat × Mem :=
  for_loop K (fun j m => call_cache_32_32 E j (draw E i transposed j m)) K 1 m

/-- Lines 56-66 of `matacc_cache32`: draw and last kernel, at the `j` the loop left. -/
def cache_last (E : Ext) (i : Nat) (transposed : Int) (jm : Nat × Mem) : Mem :=
  call_cache_32_16 E jm.1 (draw E i transposed jm.1 jm.2)

/-- The function `matacc_cache32(r, b, b_prime, i, seed, transposed)` for rank `K`, run
on memory `m` (whose fields `r`, `b`, `b_prime`, `seed` are the pointer arguments). -/
def matacc_cache32 (E : Ext) (K : Nat) (m : Mem) (i : Nat) (transposed : Int) : Mem :=
  cache_last E i transposed (cache_loop E K i transposed (cache_first E i transposed m))

/-- Lines 88-99 of `matacc_opt32`: `j = 0`, draw, first kernel. -/
def opt_first (E : Ext) (i : Nat) (transposed : Int) (m : Mem) : Mem :=
  call_opt_16_32 E 0 (draw E i transposed 0 m)

/-- Lines 102-112 of `matacc_opt32`:
`for(j=1;j<KYBER_K - 1;j++) { draw; matacc_asm_opt_32_32(...); }`. -/
def opt_loop (E : Ext) (K i : Nat) (transposed : Int) (m : Mem) : Nat × Mem :=
  for_loop K (fun j m => call_opt_32_32 E j (draw E i transposed j m)) K 1 m

/-- Lines 114-123 of `matacc_opt32`: draw and last kernel, at the `j` the loop left. -/
def opt_last (E : Ext) (i : Nat) (transposed : Int) (jm : Nat × Mem) : Mem :=
  call_opt_32_16 E jm.1 (draw E i transposed jm.1 jm.2)

/-- The function `matacc_opt32(r, b, b_prime, i, seed, transposed)` for rank `K`. -/
def matacc_opt32 (E : Ext) (K : Nat) (m : Mem) (i : Nat) (transposed : Int) : Mem :=
  opt_last E i transposed (opt_loop E K i transposed (opt_first E i transposed m))

/-- The events a run appended to the log of the memory it started from. -/
def newEvents (m m' : Mem) : List Event :=
  m'.log.drop m.log.length

/-- The coordinate pairs `(x, y)` of the `xof_absorb` calls in a log, in order. -/
def absorbCoords : List Event → List (Nat × Nat)
  | [] => []
  | Event.absorb x y _ :: es => (x, y) :: absorbCoords es
  | _ :: es => absorbCoords es

/-- The `(stage, j)` pairs of the kernel calls in a log, in order. -/
def kernelCalls : List Event → List (Stage × Nat)
  | [] => []
  | Event.kernel _ s j _ :: es => (s, j) :: kernelCalls es
  | _ :: es => kernelCalls es

/-- The block counts of the `xof_squeezeblocks` calls in a log, in order. -/
def squeezeCounts : List Event → List Nat
  | [] => []
  | Event.squeeze n _ _ :: es => n :: squeezeCounts es
  | _ :: es => squeezeCounts es

/-- The coordinate pair the code hands to `xof_absorb` for dimension `j`. -/
def coord (i : Nat) (transposed : Int) (j : Nat) : Nat × Nat :=
  if transposed ≠ 0 then (i, j) else (j, i)

/-! ## Arithmetic of the accumulator -/

/-- Coefficient-wise exact sum of two accumulators. -/
def padd (x y : List Int) : List Int :=
  List.zipWith (fun u v => u + v) x y

/-- Value of an integer stored in an `int32_t` (two's complement wrap-around). -/
def wrap32 (x : Int) : Int :=
  (x + 2 ^ 31) % 2 ^ 32 - 2 ^ 31

/-- Coefficient-wise sum where every sum is stored through `w`
(`w = wrap32` for an `int32_t` accumulator). -/
def paddW (w : Int → Int) (x y : List Int) : List Int :=
  List.zipWith (fun u v => w (u + v)) x y

/-- Every entry lies in the signed 32-bit range. -/
def InInt32 (l : List Int) : Prop :=
  ∀ x ∈ l, -(2 : Int) ^ 31 ≤ x ∧ x ≤ 2 ^ 31 - 1

/-- Every entry is at most `B` in absolute value. -/
def BoundedBy (B : Int) (l : List Int) : Prop :=
  ∀ x ∈ l, |x| ≤ B

instance (l : List Int) : Decidable (InInt32 l) := by
  unfold InInt32
  infer_instance

instance (B : Int) (l : List Int) : Decidable (BoundedBy B l) := by
  unfold BoundedBy
  infer_instance

/-! ## A model of the collaborators -/

/-- Modelled from the spec: the stream primitive and the sampler of section 6, which are
not part of `matacc.c`.  `absorb seed x y` is the stream state for a coordinate pair,
`squeeze_block` draws one block of `blockbytes` bytes and advances the state, and
`sample blk st` is the polynomial the kernel derives by rejection sampling from the block
`blk` (drawing on `st` when one block is not enough). -/
structure SpecParams where
  q : Int
  blockbytes : Nat
  zetas : List Int
  absorb : Bytes → Nat → Nat → XofState
  squeeze_block : XofState → Bytes × XofState
  sample : Bytes → XofState → List Int

/-- Modelled from the spec: `nblocks` successive blocks of the stream and the state after
them. -/
def SpecParams.blocks (S : SpecParams) : Nat → XofState → Bytes × XofState
  | 0, st => ([], st)
  | n + 1, st =>
    let o := S.squeeze_block st
    let rest := S.blocks n o.2
    (o.1.take S.blockbytes ++ rest.1, rest.2)

/-- Modelled from the spec: the reduction the last stage applies, the representative of
`x` modulo `q` in `[0, q)`. -/
def SpecParams.red (S : SpecParams) (x : Int) : Int :=
  x % S.q

/-- Modelled from the spec: the transformed copy of a vector element that the cache
stores, one entry per coefficient pair: the odd coefficient times the pair's twiddle
factor, reduced. -/
def SpecParams.mulcache (S : SpecParams) : List Int → List Int → List Int
  | z :: zs, _ :: b1 :: bs => S.red (b1 * z) :: SpecParams.mulcache S zs bs
  | _, _ => []

/-- Modelled from the spec: the product of a generated polynomial `a` and a vector
element `b` in the transformed domain, pair by pair, using the cached transform `bp` of
`b`; every coefficient is a sum of two coefficient products, not reduced. -/
def basemul : List Int → List Int → List Int → List Int
  | a0 :: a1 :: as, b0 :: b1 :: bs, p :: ps =>
    (a0 * b0 + a1 * p) :: (a0 * b1 + a1 * b0) :: basemul as bs ps
  | _, _, _ => []

/-- Modelled from the spec: the polynomial a kernel of section 6 samples from the block
in `buf`; it reads the first `blockbytes` bytes of `buf`. -/
def SpecParams.gen (S : SpecParams) (buf : Bytes) (st : XofState) : List Int :=
  S.sample (buf.take S.blockbytes) st

/-- Modelled from the spec: the product the kernel of section 6 forms from the block in
`buf`: the sampled polynomial times the vector element `b`, using the transformed copy
`bp`. -/
def SpecParams.prod (S : SpecParams) (buf : Bytes) (st : XofState) (b bp : List Int) : List Int :=
  basemul (S.gen buf st) b bp

/-- Modelled from the spec: the product of a polynomial `a` and a vector element `b`,
with the transformed copy of `b` computed from the table. -/
def SpecParams.mul (S : SpecParams) (a b : List Int) : List Int :=
  basemul a b (S.mulcache S.zetas b)

/-- Modelled from the spec: the collaborators of `matacc.c` as section 6 describes them;
`w` is how a sum is stored in the accumulator.
`xof_absorb` starts a fresh stream for `(seed, x, y)`; `xof_squeezeblocks` overwrites the
first `nblocks * blockbytes` bytes of `buf`; a kernel forms the product of the sampled
polynomial and the vector element and (first stage) stores it in `r_tmp`, (middle stage)
adds it to `r_tmp`, (last stage) adds it to `r_tmp` and stores the reduced sum in `r`.
A cache kernel computes the transformed vector element and stores it in the cache slot;
an opt kernel reads it from the cache slot. -/
def specExtWith (w : Int → Int) (S : SpecParams) : Ext where
  XOF_BLOCKBYTES := S.blockbytes
  xof_absorb := fun _ seed x y => S.absorb seed x y
  xof_squeezeblocks := fun buf n st =>
    let o := S.blocks n st
    (o.1 ++ buf.drop o.1.length, o.2)
  zetas := S.zetas
  matacc_asm_cache_16_32 := fun _ b c buf zetas st _ =>
    { r_tmp := (S.prod buf st b (S.mulcache zetas b)).map w,
      c := c, buf := buf, state := st, b_prime := S.mulcache zetas b }
  matacc_asm_cache_32_32 := fun rt b c buf zetas st _ =>
    { r_tmp := paddW w rt (S.prod buf st b (S.mulcache zetas b)),
      c := c, buf := buf, state := st, b_prime := S.mulcache zetas b }
  matacc_asm_cache_32_16 := fun _ b c buf zetas st _ rt =>
    { r := (paddW w rt (S.prod buf st b (S.mulcache zetas b))).map S.red,
      c := c, buf := buf, state := st, b_prime := S.mulcache zetas b, r_tmp := rt }
  matacc_asm_opt_16_32 := fun _ b c buf st bp =>
    { r_tmp := (S.prod buf st b bp).map w, c := c, buf := buf, state := st }
  matacc_asm_opt_32_32 := fun rt b c buf st bp =>
    { r_tmp := paddW w rt (S.prod buf st b bp), c := c, buf := buf, state := st }
  matacc_asm_opt_32_16 := fun _ b c buf st bp rt =>
    { r := (paddW w rt (S.prod buf st b bp)).map S.red,
      c := c, buf := buf, state := st, r_tmp := rt }

/-- Modelled from the spec: the collaborators with an `int32_t` accumulator. -/
def specExt (S : SpecParams) : Ext :=
  specExtWith wrap32 S

/-! ## A small concrete instance (polynomials of 4 coefficients) -/

/-- A toy stream and sampler: the state is the absorbed string followed by a block
counter, a block has 6 bytes, and the sampler keeps the first 4 bytes below `q`
(filling up with zeros). -/
def toyParams : SpecParams where
  q := 3329
  blockbytes := 6
  zetas := [17, -17]
  absorb := fun seed x y => seed ++ [x, y, 0]
  squeeze_block := fun st =>
    ((List.range 6).map (fun t => (st.foldl (fun h v => (h * 31 + v) % 65521) 7 * (t + 1)) % 256),
      st ++ [1])
  sample := fun blk _ =>
    (((blk.map Int.ofNat).filter (fun v => v < 3329)) ++ List.replicate 4 0).take 4

/-- The collaborators of the toy instance, `int32_t` accumulator. -/
def toyExt : Ext := specExt toyParams

/-- A toy memory: `r`, `b_prime` and the locals hold arbitrary values at entry. -/
def toyMem : Mem where
  r := ⟨[9, 9, 9, 9]⟩
  b := ⟨[⟨[1, 2, 3, 4]⟩, ⟨[5, 6, 7, 8]⟩, ⟨[-1, -2, -3, -4]⟩]⟩
  b_prime := ⟨[⟨[7, 7]⟩, ⟨[7, 7]⟩, ⟨[7, 7]⟩]⟩
  seed := List.replicate 32 0
  buf := [1, 2, 3, 4, 5, 6, 7, 8]
  state := [42]
  c := [0, 0, 0, 0]
  r_tmp := [5, 5, 5, 5]
  log := []

/-- A second toy memory with the vector and seed of `toyMem` and other contents in `r`,
the cache vector and the locals. -/
def toyMem2 : Mem where
  r := ⟨[-3, 0, 12, 1]⟩
  b := ⟨[⟨[1, 2, 3, 4]⟩, ⟨[5, 6, 7, 8]⟩, ⟨[-1, -2, -3, -4]⟩]⟩
  b_prime := ⟨[⟨[0, 1]⟩, ⟨[2, 3]⟩, ⟨[4, 5]⟩]⟩
  seed := List.replicate 32 0
  buf := [255, 254, 253, 252, 251, 250, 249, 248]
  state := []
  c := [1, 2, 3, 4]
  r_tmp := [-1, -1, -1, -1]
  log := []

/-- The memory `toyMem2` with, as cache vector, the one `matacc_cache32` leaves when run
on `toyMem` for row 1, not transposed. -/
def toyOptMem : Mem :=
  { toyMem2 with b_prime := (matacc_cache32 toyExt 3 toyMem 1 0).b_prime }

/-- The zero polynomial with `N` coefficients. -/
def zeroPoly (N : Nat) : poly :=
  ⟨List.replicate N 0⟩

/-- The vector of `K` zero polynomials. -/
def zeroVec (K N : Nat) : polyvec :=
  ⟨List.replicate K (zeroPoly N)⟩

/-- The toy memory with the zero vector (and the seed of 32 zero bytes). -/
def toyZeroMem : Mem :=
  { toyMem with b := zeroVec 3 4 }

/-- Another memory with the zero vector and the seed of 32 zero bytes, whose cache vector
is the one `matacc_cache32` leaves when run on `toyZeroMem` for row 2, transposed. -/
def toyZeroOptMem : Mem :=
  { toyMem2 with b := zeroVec 3 4,
                 b_prime := (matacc_cache32 toyExt 3 toyZeroMem 2 1).b_prime }

/-! ## Contracts of the collaborators -/

/-- Two buffers hold the same squeezed block: they agree on their first `n` bytes. -/
def SameBlock (n : Nat) (x y : Bytes) : Prop :=
  x.take n = y.take n

instance (n : Nat) (x y : Bytes) : Decidable (SameBlock n x y) := by
  unfold SameBlock
  infer_instance

/-- Contract of the stream primitive (section 6): `xof_absorb` starts a fresh stream (the
state it leaves depends on the seed and the coordinates only), and squeezing one block
leaves a state and a block of `XOF_BLOCKBYTES` bytes that depend on the state only. -/
structure StreamContract (E : Ext) : Prop where
  absorb_fresh : ∀ s s' seed x y, E.xof_absorb s seed x y = E.xof_absorb s' seed x y
  squeeze_state : ∀ buf buf' st,
    (E.xof_squeezeblocks buf 1 st).2 = (E.xof_squeezeblocks buf' 1 st).2
  squeeze_block : ∀ buf buf' st,
    SameBlock E.XOF_BLOCKBYTES (E.xof_squeezeblocks buf 1 st).1 (E.xof_squeezeblocks buf' 1 st).1

/-- The cache kernels are functions of their inputs: what they leave in `r_tmp`, in `r`
and in the cache slot depends on the vector element, the block in `buf`, the table, the
stream state and (middle and last stage) the accumulator, and not on what the output
objects, `c` or the bytes of `buf` after the block held before the call. -/
structure CacheKernelsFunctional (E : Ext) : Prop where
  first : ∀ rt rt' b c c' buf buf' st slot slot', SameBlock E.XOF_BLOCKBYTES buf buf' →
    (E.matacc_asm_cache_16_32 rt b c buf E.zetas st slot).r_tmp =
      (E.matacc_asm_cache_16_32 rt' b c' buf' E.zetas st slot').r_tmp ∧
    (E.matacc_asm_cache_16_32 rt b c buf E.zetas st slot).b_prime =
      (E.matacc_asm_cache_16_32 rt' b c' buf' E.zetas st slot').b_prime
  middle : ∀ rt b c c' buf buf' st slot slot', SameBlock E.XOF_BLOCKBYTES buf buf' →
    (E.matacc_asm_cache_32_32 rt b c buf E.zetas st slot).r_tmp =
      (E.matacc_asm_cache_32_32 rt b c' buf' E.zetas st slot').r_tmp ∧
    (E.matacc_asm_cache_32_32 rt b c buf E.zetas st slot).b_prime =
      (E.matacc_asm_cache_32_32 rt b c' buf' E.zetas st slot').b_prime
  last : ∀ r r' b c c' buf buf' st slot slot' rt, SameBlock E.XOF_BLOCKBYTES buf buf' →
    (E.matacc_asm_cache_32_16 r b c buf E.zetas st slot rt).r =
      (E.matacc_asm_cache_32_16 r' b c' buf' E.zetas st slot' rt).r ∧
    (E.matacc_asm_cache_32_16 r b c buf E.zetas st slot rt).b_prime =
      (E.matacc_asm_cache_32_16 r' b c' buf' E.zetas st slot' rt).b_prime

/-- Contract of the opt kernels relative to the cache kernels: given, in the cache slot,
the transformed copy that the cache kernel of the same stage writes for the vector
element `b`, an opt kernel leaves in the accumulator (last stage: in `r`) what that cache
kernel leaves there, for the same accumulator, block and stream state. -/
structure OptMatchesCache (E : Ext) : Prop where
  first : ∀ rt rt' b c c' buf buf' st slot, SameBlock E.XOF_BLOCKBYTES buf buf' →
    (E.matacc_asm_opt_16_32 rt' b c' buf' st
        (E.matacc_asm_cache_16_32 rt b c buf E.zetas st slot).b_prime).r_tmp =
      (E.matacc_asm_cache_16_32 rt b c buf E.zetas st slot).r_tmp
  middle : ∀ rt b c c' buf buf' st slot, SameBlock E.XOF_BLOCKBYTES buf buf' →
    (E.matacc_asm_opt_32_32 rt b c' buf' st
        (E.matacc_asm_cache_32_32 rt b c buf E.zetas st slot).b_prime).r_tmp =
      (E.matacc_asm_cache_32_32 rt b c buf E.zetas st slot).r_tmp
  last : ∀ r r' b c c' buf buf' st slot rt, SameBlock E.XOF_BLOCKBYTES buf buf' →
    (E.matacc_asm_opt_32_16 r' b c' buf' st
        (E.matacc_asm_cache_32_16 r b c buf E.zetas st slot rt).b_prime rt).r =
      (E.matacc_asm_cache_32_16 r b c buf E.zetas st slot rt).r

/-- Contract of the cache kernels for the cache slot (section 6, item 4): each stage
writes the transformed copy `tr zetas b` of the vector element `b` it was given. -/
structure CacheWritesTransform (E : Ext) (tr : List Int → List Int → List Int) : Prop where
  first : ∀ rt b c buf st slot,
    (E.matacc_asm_cache_16_32 rt b c buf E.zetas st slot).b_prime = tr E.zetas b
  middle : ∀ rt b c buf st slot,
    (E.matacc_asm_cache_32_32 rt b c buf E.zetas st slot).b_prime = tr E.zetas b
  last : ∀ r b c buf st slot rt,
    (E.matacc_asm_cache_32_16 r b c buf E.zetas st slot rt).b_prime = tr E.zetas b

/-- Contract of the cache kernels for the `int32_t` accumulator (section 6, items 1 to
3), for a sampler `gen`, a product `mul` and a coefficient reduction `red`.  It speaks of
values that fit the accumulator only: when the product is in the `int32_t` range the
first stage sets `r_tmp` to it; when `r_tmp` holds `int32_t` values and its sum with the
product is in the `int32_t` range, a middle stage adds the product to `r_tmp` without
reducing, and the last stage adds it and stores the reduced coefficients in `r`. -/
structure CacheAccumulates (E : Ext) (gen : Bytes → XofState → List Int)
    (mul : List Int → List Int → List Int) (red : Int → Int) : Prop where
  first : ∀ rt b c buf st slot, InInt32 (mul (gen buf st) b) →
    (E.matacc_asm_cache_16_32 rt b c buf E.zetas st slot).r_tmp = mul (gen buf st) b
  middle : ∀ rt b c buf st slot, InInt32 rt → InInt32 (padd rt (mul (gen buf st) b)) →
    (E.matacc_asm_cache_32_32 rt b c buf E.zetas st slot).r_tmp = padd rt (mul (gen buf st) b)
  last : ∀ r b c buf st slot rt, InInt32 rt → InInt32 (padd rt (mul (gen buf st) b)) →
    (E.matacc_asm_cache_32_16 r b c buf E.zetas st slot rt).r =
      (padd rt (mul (gen buf st) b)).map red

/-- Contract of the opt kernels for the `int32_t` accumulator: the same three updates,
under the same conditions on the range, provided the cache slot holds the transformed
copy `tr zetas b` of the vector element. -/
structure OptAccumulates (E : Ext) (gen : Bytes → XofState → List Int)
    (mul : List Int → List Int → List Int) (tr : List Int → List Int → List Int)
    (red : Int → Int) : Prop where
  first : ∀ rt b c buf st, InInt32 (mul (gen buf st) b) →
    (E.matacc_asm_opt_16_32 rt b c buf st (tr E.zetas b)).r_tmp = mul (gen buf st) b
  middle : ∀ rt b c buf st, InInt32 rt → InInt32 (padd rt (mul (gen buf st) b)) →
    (E.matacc_asm_opt_32_32 rt b c buf st (tr E.zetas b)).r_tmp = padd rt (mul (gen buf st) b)
  last : ∀ r b c buf st rt, InInt32 rt → InInt32 (padd rt (mul (gen buf st) b)) →
    (E.matacc_asm_opt_32_16 r b c buf st (tr E.zetas b) rt).r =
      (padd rt (mul (gen buf st) b)).map red

/-- The polynomial generated from the keystream of dimension `j`: the sampler applied to
the first block (and the state after it) of the stream absorbed for the coordinate pair
of `j`. -/
def rowPoly (E : Ext) (gen : Bytes → XofState → List Int) (seed : Bytes) (i : Nat)
    (transposed : Int) (j : Nat) : List Int :=
  gen (E.xof_squeezeblocks [] 1
        (E.xof_absorb [] seed (coord i transposed j).1 (coord i transposed j).2)).1
      (E.xof_squeezeblocks [] 1
        (E.xof_absorb [] seed (coord i transposed j).1 (coord i transposed j).2)).2

/-- The product of dimension `j`: generated polynomial times vector element `b[j]`. -/
def rowProd (E : Ext) (gen : Bytes → XofState → List Int)
    (mul : List Int → List Int → List Int) (m : Mem) (i : Nat) (transposed : Int)
    (j : Nat) : List Int :=
  mul (rowPoly E gen m.seed i transposed j) (m.b.slot j)

/-- Coefficient-wise congruence modulo `q`. -/
def CongrMod (q : Int) (x y : List Int) : Prop :=
  List.Forall₂ (fun u v => u ≡ v [ZMOD q]) x y

/-- Modelled from the spec: the product an opt kernel forms for dimension `j`: generated
polynomial times vector element `b[j]`, using the cache slot `b_prime[j]` as it is. -/
def SpecParams.rowProdOpt (S : SpecParams) (E : Ext) (m : Mem) (i : Nat) (transposed : Int)
    (j : Nat) : List Int :=
  basemul (rowPoly E S.gen m.seed i transposed j) (m.b.slot j) (m.b_prime.slot j)

/-! ## Shape of the call log -/

/-- The three calls made for dimension `j`: an absorb of the coordinate pair of `j`, a
squeeze of one block from the state that absorb produced, and the kernel of stage `s`
called for index `j` with the block that squeeze left in `buf`. -/
def IsStage (mode : Mode) (s : Stage) (i : Nat) (transposed : Int) (j : Nat)
    (ev : List Event) : Prop :=
  ∃ st blk, ev = [Event.absorb (coord i transposed j).1 (coord i transposed j).2 st,
    Event.squeeze 1 st blk, Event.kernel mode s j blk]

/-- The calls of a whole run for rank `K`: the first stage for `j = 0`, then `K - 2`
middle stages for `j = 1, ..., K - 2` in increasing order, then the last stage for
`j = K - 1`. -/
def IsRun (mode : Mode) (K i : Nat) (transposed : Int) (ev : List Event) : Prop :=
  ∃ (first : List Event) (mids : List (List Event)) (last : List Event),
    ev = first ++ mids.flatten ++ last ∧
    IsStage mode Stage.s16_32 i transposed 0 first ∧
    mids.length = K - 2 ∧
    (∀ n e, mids[n]? = some e → IsStage mode Stage.s32_32 i transposed (n + 1) e) ∧
    IsStage mode Stage.s32_16 i transposed (K - 1) last

/-! ## Relations used in the loop invariants -/

/-- What is known of the cache vector when the loop counter is `j`: slots below `j` hold
the transformed vector elements, slots from `j` on are as at entry. -/
def CacheUpTo (E : Ext) (tr : List Int → List Int → List Int) (m : Mem) (j : Nat)
    (x : Mem) : Prop :=
  x.b = m.b ∧ x.b_prime.vec.length = m.b_prime.vec.length ∧
    (∀ k, k < j → x.b_prime.slot k = tr E.zetas (m.b.slot k)) ∧
    (∀ k, j ≤ k → x.b_prime.slot k = m.b_prime.slot k)

/-- Two memories agree on what a run reads: vector, seed, shape of the cache vector, and
the cache slots below `j`. -/
def SameSoFar (j : Nat) (x y : Mem) : Prop :=
  y.b = x.b ∧ y.seed = x.seed ∧ y.b_prime.vec.length = x.b_prime.vec.length ∧
    ∀ k, k < j → y.b_prime.slot k = x.b_prime.slot k

/-! ## Basic facts about the steps -/

theorem newEvents_eq (m m' : Mem) (ev : List Event) (h : m'.log = m.log ++ ev) :
    newEvents m m' = ev := by
  simp [newEvents, h]

theorem absorbCoords_append (l₁ l₂ : List Event) :
    absorbCoords (l₁ ++ l₂) = absorbCoords l₁ ++ absorbCoords l₂ := by
  induction l₁ with
  | nil => rfl
  | cons e es ih => cases e <;> simp [absorbCoords, ih]

theorem kernelCalls_append (l₁ l₂ : List Event) :
    kernelCalls (l₁ ++ l₂) = kernelCalls l₁ ++ kernelCalls l₂ := by
  induction l₁ with
  | nil => rfl
  | cons e es ih => cases e <;> simp [kernelCalls, ih]

theorem squeezeCounts_append (l₁ l₂ : List Event) :
    squeezeCounts (l₁ ++ l₂) = squeezeCounts l₁ ++ squeezeCounts l₂ := by
  induction l₁ with
  | nil => rfl
  | cons e es ih => cases e <;> simp [squeezeCounts, ih]

theorem draw_log (E : Ext) (i : Nat) (t : Int) (j : Nat) (m : Mem) :
    (draw E i t j m).log = m.log ++
      [Event.absorb (coord i t j).1 (coord i t j).2
          (E.xof_absorb m.state m.seed (coord i t j).1 (coord i t j).2),
       Event.squeeze 1 (E.xof_absorb m.state m.seed (coord i t j).1 (coord i t j).2)
          (draw E i t j m).buf] := by
  unfold draw coord
  split <;> simp [do_squeeze, do_absorb]

theorem cache3_log (E : Ext) (m : Mem) (i : Nat) (t : Int) :
    ∃ s0 s1 s2 k0 k1 k2, (matacc_cache32 E 3 m i t).log = m.log ++
      [Event.absorb (coord i t 0).1 (coord i t 0).2 s0, Event.squeeze 1 s0 k0,
       Event.kernel Mode.cache Stage.s16_32 0 k0,
       Event.absorb (coord i t 1).1 (coord i t 1).2 s1, Event.squeeze 1 s1 k1,
       Event.kernel Mode.cache Stage.s32_32 1 k1,
       Event.absorb (coord i t 2).1 (coord i t 2).2 s2, Event.squeeze 1 s2 k2,
       Event.kernel Mode.cache Stage.s32_16 2 k2] := by
  have h : (matacc_cache32 E 3 m i t).log = (matacc_cache32 E 3 m i t).log := rfl
  conv at h =>
    rhs
    simp only [matacc_cache32, cache_last, cache_loop, for_loop, cache_first, call_cache_16_32,
      call_cache_32_32, call_cache_32_16, draw_log, List.append_assoc, List.cons_append,
      List.nil_append, Nat.lt_irrefl, if_true, if_false, Nat.reduceSub, Nat.reduceAdd,
      Nat.one_lt_ofNat, Nat.reduceLT]
  exact ⟨_, _, _, _, _, _, h⟩

theorem opt3_log (E : Ext) (m : Mem) (i : Nat) (t : Int) :
    ∃ s0 s1 s2 k0 k1 k2, (matacc_opt32 E 3 m i t).log = m.log ++
      [Event.absorb (coord i t 0).1 (coord i t 0).2 s0, Event.squeeze 1 s0 k0,
       Event.kernel Mode.opt Stage.s16_32 0 k0,
       Event.absorb (coord i t 1).1 (coord i t 1).2 s1, Event.squeeze 1 s1 k1,
       Event.kernel Mode.opt Stage.s32_32 1 k1,
       Event.absorb (coord i t 2).1 (coord i t 2).2 s2, Event.squeeze 1 s2 k2,
       Event.kernel Mode.opt Stage.s32_16 2 k2] := by
  have h : (matacc_opt32 E 3 m i t).log = (matacc_opt32 E 3 m i t).log := rfl
  conv at h =>
    rhs
    simp only [matacc_opt32, opt_last, opt_loop, for_loop, opt_first, call_opt_16_32,
      call_opt_32_32, call_opt_32_16, draw_log, List.append_assoc, List.cons_append,
      List.nil_append, Nat.lt_irrefl, if_true, if_false, Nat.reduceSub, Nat.reduceAdd,
      Nat.one_lt_ofNat, Nat.reduceLT]
  exact ⟨_, _, _, _, _, _, h⟩

/-! ## Transpose addressing (C2) -/

/-- C2 (amended): for rank `KYBER_K = 3`, every row index `i` and both functions, the
coordinate pairs handed to `xof_absorb`, in order, are `(i,0),(i,1),(i,2)` when
`transposed` is nonzero and `(0,i),(1,i),(2,i)` when `transposed` is zero. -/
theorem absorb_coordinates (E : Ext) (m : Mem) (i : Nat) (transposed : Int) :
    absorbCoords (newEvents m (matacc_cache32 E KYBER_K m i transposed)) =
        (if transposed ≠ 0 then [(i, 0), (i, 1), (i, 2)] else [(0, i), (1, i), (2, i)]) ∧
      absorbCoords (newEvents m (matacc_opt32 E KYBER_K m i transposed)) =
        (if transposed ≠ 0 then [(i, 0), (i, 1), (i, 2)] else [(0, i), (1, i), (2, i)]) := by
  obtain ⟨s0, s1, s2, k0, k1, k2, hc⟩ := cache3_log E m i transposed
  obtain ⟨u0, u1, u2, l0, l1, l2, ho⟩ := opt3_log E m i transposed
  rw [KYBER_K, newEvents_eq _ _ _ hc, newEvents_eq _ _ _ ho]
  by_cases h : transposed = 0 <;> simp [absorbCoords, coord, h]

/-- C2, as claimed, fails: with `transposed = 0` and row index 1 the code absorbs
`(0,1),(1,1),(2,1)`, not `(1,0),(1,1),(1,2)`; with `transposed = 1` it absorbs
`(1,0),(1,1),(1,2)`, not `(0,1),(1,1),(2,1)`. -/
theorem absorb_coordinates_claimed_order_fails :
    absorbCoords (newEvents toyMem (matacc_cache32 toyExt KYBER_K toyMem 1 0)) =
        [(0, 1), (1, 1), (2, 1)] ∧
      absorbCoords (newEvents toyMem (matacc_cache32 toyExt KYBER_K toyMem 1 0)) ≠
        [(1, 0), (1, 1), (1, 2)] ∧
      absorbCoords (newEvents toyMem (matacc_opt32 toyExt KYBER_K toyMem 1 1)) =
        [(1, 0), (1, 1), (1, 2)] ∧
      absorbCoords (newEvents toyMem (matacc_opt32 toyExt KYBER_K toyMem 1 1)) ≠
        [(0, 1), (1, 1), (2, 1)] := by
  decide

/-! ## One block per coordinate (C10) -/

/-- C10: for rank `KYBER_K = 3`, the calls one run of `matacc_cache32` (and of
`matacc_opt32`) makes are exactly nine, in the order absorb, squeeze, kernel, three times
over: three absorbs, three squeezes of one block each, every squeeze taken from the state
the absorb before it produced, and the block each squeeze leaves in `buf` is the one the
kernel call right after it receives. -/
theorem one_block_per_coordinate (E : Ext) (m : Mem) (i : Nat) (transposed : Int) :
    (∃ s0 s1 s2 k0 k1 k2, newEvents m (matacc_cache32 E KYBER_K m i transposed) =
      [Event.absorb (coord i transposed 0).1 (coord i transposed 0).2 s0,
       Event.squeeze 1 s0 k0, Event.kernel Mode.cache Stage.s16_32 0 k0,
       Event.absorb (coord i transposed 1).1 (coord i transposed 1).2 s1,
       Event.squeeze 1 s1 k1, Event.kernel Mode.cache Stage.s32_32 1 k1,
       Event.absorb (coord i transposed 2).1 (coord i transposed 2).2 s2,
       Event.squeeze 1 s2 k2, Event.kernel Mode.cache Stage.s32_16 2 k2]) ∧
    (∃ s0 s1 s2 k0 k1 k2, newEvents m (matacc_opt32 E KYBER_K m i transposed) =
      [Event.absorb (coord i transposed 0).1 (coord i transposed 0).2 s0,
       Event.squeeze 1 s0 k0, Event.kernel Mode.opt Stage.s16_32 0 k0,
       Event.absorb (coord i transposed 1).1 (coord i transposed 1).2 s1,
       Event.squeeze 1 s1 k1, Event.kernel Mode.opt Stage.s32_32 1 k1,
       Event.absorb (coord i transposed 2).1 (coord i transposed 2).2 s2,
       Event.squeeze 1 s2 k2, Event.kernel Mode.opt Stage.s32_16 2 k2]) ∧
    (absorbCoords (newEvents m (matacc_cache32 E KYBER_K m i transposed))).length = KYBER_K ∧
    squeezeCounts (newEvents m (matacc_cache32 E KYBER_K m i transposed)) = [1, 1, 1] ∧
    (absorbCoords (newEvents m (matacc_opt32 E KYBER_K m i transposed))).length = KYBER_K ∧
    squeezeCounts (newEvents m (matacc_opt32 E KYBER_K m i transposed)) = [1, 1, 1] := by
  obtain ⟨s0, s1, s2, k0, k1, k2, hc⟩ := cache3_log E m i transposed
  obtain ⟨u0, u1, u2, l0, l1, l2, ho⟩ := opt3_log E m i transposed
  rw [KYBER_K, newEvents_eq _ _ _ hc, newEvents_eq _ _ _ ho]
  exact ⟨⟨s0, s1, s2, k0, k1, k2, rfl⟩, ⟨u0, u1, u2, l0, l1, l2, rfl⟩, rfl, rfl, rfl, rfl⟩

/-! ## Frame lemmas -/

@[simp] theorem draw_b (E : Ext) (i : Nat) (t : Int) (j : Nat) (m : Mem) :
    (draw E i t j m).b = m.b := by
  unfold draw; split <;> rfl

@[simp] theorem draw_seed (E : Ext) (i : Nat) (t : Int) (j : Nat) (m : Mem) :
    (draw E i t j m).seed = m.seed := by
  unfold draw; split <;> rfl

@[simp] theorem draw_b_prime (E : Ext) (i : Nat) (t : Int) (j : Nat) (m : Mem) :
    (draw E i t j m).b_prime = m.b_prime := by
  unfold draw; split <;> rfl

@[simp] theorem draw_r (E : Ext) (i : Nat) (t : Int) (j : Nat) (m : Mem) :
    (draw E i t j m).r = m.r := by
  unfold draw; split <;> rfl

@[simp] theorem draw_r_tmp (E : Ext) (i : Nat) (t : Int) (j : Nat) (m : Mem) :
    (draw E i t j m).r_tmp = m.r_tmp := by
  unfold draw; split <;> rfl

@[simp] theorem draw_c (E : Ext) (i : Nat) (t : Int) (j : Nat) (m : Mem) :
    (draw E i t j m).c = m.c := by
  unfold draw; split <;> rfl

theorem draw_state (E : Ext) (i : Nat) (t : Int) (j : Nat) (m : Mem) :
    (draw E i t j m).state =
      (E.xof_squeezeblocks m.buf 1
        (E.xof_absorb m.state m.seed (coord i t j).1 (coord i t j).2)).2 := by
  unfold draw coord; split <;> rfl

theorem draw_buf (E : Ext) (i : Nat) (t : Int) (j : Nat) (m : Mem) :
    (draw E i t j m).buf =
      (E.xof_squeezeblocks m.buf 1
        (E.xof_absorb m.state m.seed (coord i t j).1 (coord i t j).2)).1 := by
  unfold draw coord; split <;> rfl

/-- A property of the memory that every loop body keeps is kept by the loop. -/
theorem for_loop_keeps (P : Mem → Prop) (K : Nat) (body : Nat → Mem → Mem)
    (hbody : ∀ j m, P m → P (body j m)) :
    ∀ fuel j m, P m → P (for_loop K body fuel j m).2 := by
  intro fuel
  induction fuel with
  | zero => intro j m h; exact h
  | succ n ih =>
    intro j m h
    unfold for_loop
    split
    · exact ih _ _ (hbody j m h)
    · exact h

/-- With `j ≤ K - 1` at entry and enough guard evaluations, the loop exits with
`j = K - 1`, that is, by its guard. -/
theorem for_loop_exit (K : Nat) (body : Nat → Mem → Mem) :
    ∀ fuel j m, j ≤ K - 1 → K - 1 - j ≤ fuel → (for_loop K body fuel j m).1 = K - 1 := by
  intro fuel
  induction fuel with
  | zero => intro j m h1 h2; simp only [for_loop]; omega
  | succ n ih =>
    intro j m h1 h2
    unfold for_loop
    split
    · exact ih _ _ (by omega) (by omega)
    · simp only; omega

/-- The log of the loop: one group of calls per iteration, for `j, j + 1, ..., K - 2`. -/
theorem for_loop_log (mode : Mode) (K i : Nat) (t : Int) (body : Nat → Mem → Mem)
    (hbody : ∀ j m, ∃ ev, (body j m).log = m.log ++ ev ∧ IsStage mode Stage.s32_32 i t j ev) :
    ∀ fuel j m, j ≤ K - 1 → K - 1 - j ≤ fuel →
      ∃ mids : List (List Event),
        (for_loop K body fuel j m).2.log = m.log ++ mids.flatten ∧
        mids.length = K - 1 - j ∧
        (∀ n e, mids[n]? = some e → IsStage mode Stage.s32_32 i t (j + n) e) ∧
        kernelCalls mids.flatten =
          (List.range' j (K - 1 - j)).map (fun x => (Stage.s32_32, x)) := by
  intro fuel
  induction fuel with
  | zero =>
    intro j m h1 h2
    have hj : K - 1 - j = 0 := by omega
    exact ⟨[], by simp [for_loop], by simp [hj], by simp, by simp [hj, kernelCalls]⟩
  | succ f ih =>
    intro j m h1 h2
    unfold for_loop
    split
    · rename_i hlt
      obtain ⟨ev, hev, hst⟩ := hbody j m
      obtain ⟨mids, hlog, hlen, hall, hk⟩ := ih (j + 1) (body j m) (by omega) (by omega)
      refine ⟨ev :: mids, ?_, ?_, ?_, ?_⟩
      · rw [hlog, hev]; simp
      · simp [hlen]; omega
      · intro n e hn
        cases n with
        | zero =>
          simp at hn
          subst hn
          simpa using hst
        | succ n =>
          simp at hn
          have := hall n e hn
          rwa [show j + (n + 1) = j + 1 + n by omega]
      · have hK : K - 1 - j = (K - 1 - (j + 1)) + 1 := by omega
        obtain ⟨st, blk, rfl⟩ := hst
        rw [hK, List.range'_succ]
        simp [kernelCalls, hk]
    · rename_i hge
      have hj : K - 1 - j = 0 := by omega
      exact ⟨[], by simp, by simp [hj], by simp, by simp [hj, kernelCalls]⟩

theorem stage_log_cache_16_32 (E : Ext) (i : Nat) (t : Int) (j : Nat) (m : Mem) :
    ∃ ev, (call_cache_16_32 E j (draw E i t j m)).log = m.log ++ ev ∧
      IsStage Mode.cache Stage.s16_32 i t j ev :=
  ⟨[Event.absorb (coord i t j).1 (coord i t j).2
        (E.xof_absorb m.state m.seed (coord i t j).1 (coord i t j).2),
      Event.squeeze 1 (E.xof_absorb m.state m.seed (coord i t j).1 (coord i t j).2)
        (draw E i t j m).buf,
      Event.kernel Mode.cache Stage.s16_32 j (draw E i t j m).buf],
    by simp [call_cache_16_32, draw_log], _, _, rfl⟩

theorem stage_log_cache_32_32 (E : Ext) (i : Nat) (t : Int) (j : Nat) (m : Mem) :
    ∃ ev, (call_cache_32_32 E j (draw E i t j m)).log = m.log ++ ev ∧
      IsStage Mode.cache Stage.s32_32 i t j ev :=
  ⟨[Event.absorb (coord i t j).1 (coord i t j).2
        (E.xof_absorb m.state m.seed (coord i t j).1 (coord i t j).2),
      Event.squeeze 1 (E.xof_absorb m.state m.seed (coord i t j).1 (coord i t j).2)
        (draw E i t j m).buf,
      Event.kernel Mode.cache Stage.s32_32 j (draw E i t j m).buf],
    by simp [call_cache_32_32, draw_log], _, _, rfl⟩

theorem stage_log_cache_32_16 (E : Ext) (i : Nat) (t : Int) (j : Nat) (m : Mem) :
    ∃ ev, (call_cache_32_16 E j (draw E i t j m)).log = m.log ++ ev ∧
      IsStage Mode.cache Stage.s32_16 i t j ev :=
  ⟨[Event.absorb (coord i t j).1 (coord i t j).2
        (E.xof_absorb m.state m.seed (coord i t j).1 (coord i t j).2),
      Event.squeeze 1 (E.xof_absorb m.state m.seed (coord i t j).1 (coord i t j).2)
        (draw E i t j m).buf,
      Event.kernel Mode.cache Stage.s32_16 j (draw E i t j m).buf],
    by simp [call_cache_32_16, draw_log], _, _, rfl⟩

theorem stage_log_opt_16_32 (E : Ext) (i : Nat) (t : Int) (j : Nat) (m : Mem) :
    ∃ ev, (call_opt_16_32 E j (draw E i t j m)).log = m.log ++ ev ∧
      IsStage Mode.opt Stage.s16_32 i t j ev :=
  ⟨[Event.absorb (coord i t j).1 (coord i t j).2
        (E.xof_absorb m.state m.seed (coord i t j).1 (coord i t j).2),
      Event.squeeze 1 (E.xof_absorb m.state m.seed (coord i t j).1 (coord i t j).2)
        (draw E i t j m).buf,
      Event.kernel Mode.opt Stage.s16_32 j (draw E i t j m).buf],
    by simp [call_opt_16_32, draw_log], _, _, rfl⟩

theorem stage_log_opt_32_32 (E : Ext) (i : Nat) (t : Int) (j : Nat) (m : Mem) :
    ∃ ev, (call_opt_32_32 E j (draw E i t j m)).log = m.log ++ ev ∧
      IsStage Mode.opt Stage.s32_32 i t j ev :=
  ⟨[Event.absorb (coord i t j).1 (coord i t j).2
        (E.xof_absorb m.state m.seed (coord i t j).1 (coord i t j).2),
      Event.squeeze 1 (E.xof_absorb m.state m.seed (coord i t j).1 (coord i t j).2)
        (draw E i t j m).buf,
      Event.kernel Mode.opt Stage.s32_32 j (draw E i t j m).buf],
    by simp [call_opt_32_32, draw_log], _, _, rfl⟩

theorem stage_log_opt_32_16 (E : Ext) (i : Nat) (t : Int) (j : Nat) (m : Mem) :
    ∃ ev, (call_opt_32_16 E j (draw E i t j m)).log = m.log ++ ev ∧
      IsStage Mode.opt Stage.s32_16 i t j ev :=
  ⟨[Event.absorb (coord i t j).1 (coord i t j).2
        (E.xof_absorb m.state m.seed (coord i t j).1 (coord i t j).2),
      Event.squeeze 1 (E.xof_absorb m.state m.seed (coord i t j).1 (coord i t j).2)
        (draw E i t j m).buf,
      Event.kernel Mode.opt Stage.s32_16 j (draw E i t j m).buf],
    by simp [call_opt_32_16, draw_log], _, _, rfl⟩

theorem kernelCalls_stage (mode : Mode) (s : Stage) (i : Nat) (t : Int) (j : Nat)
    (ev : List Event) (h : IsStage mode s i t j ev) : kernelCalls ev = [(s, j)] := by
  obtain ⟨st, blk, rfl⟩ := h
  rfl

/-- The log of a run assembled from a first stage, a loop of middle stages and a last
stage, whatever the kernels are. -/
theorem run_log (mode : Mode) (K : Nat) (hK : 2 ≤ K) (i : Nat) (t : Int)
    (first body last : Nat → Mem → Mem)
    (hfirst : ∀ j m, ∃ ev, (first j m).log = m.log ++ ev ∧ IsStage mode Stage.s16_32 i t j ev)
    (hbody : ∀ j m, ∃ ev, (body j m).log = m.log ++ ev ∧ IsStage mode Stage.s32_32 i t j ev)
    (hlast : ∀ j m, ∃ ev, (last j m).log = m.log ++ ev ∧ IsStage mode Stage.s32_16 i t j ev)
    (m : Mem) :
    IsRun mode K i t (newEvents m
      (last (for_loop K body K 1 (first 0 m)).1 (for_loop K body K 1 (first 0 m)).2)) ∧
    kernelCalls (newEvents m
      (last (for_loop K body K 1 (first 0 m)).1 (for_loop K body K 1 (first 0 m)).2)) =
      (Stage.s16_32, 0) ::
        ((List.range' 1 (K - 2)).map (fun j => (Stage.s32_32, j)) ++ [(Stage.s32_16, K - 1)]) := by
  obtain ⟨e0, h0, s0⟩ := hfirst 0 m
  obtain ⟨mids, hm, hlen, hall, hk⟩ :=
    for_loop_log mode K i t body hbody K 1 (first 0 m) (by omega) (by omega)
  have hj := for_loop_exit K body K 1 (first 0 m) (by omega) (by omega)
  obtain ⟨e2, h2, s2⟩ := hlast (for_loop K body K 1 (first 0 m)).1 (for_loop K body K 1 (first 0 m)).2
  rw [hj] at h2 s2
  have hlog : (last (K - 1) (for_loop K body K 1 (first 0 m)).2).log =
      m.log ++ (e0 ++ mids.flatten ++ e2) := by
    rw [h2, hm, h0]; simp
  have hK2 : K - 1 - 1 = K - 2 := by omega
  rw [hj, newEvents_eq _ _ _ hlog]
  refine ⟨⟨e0, mids, e2, rfl, s0, by omega, ?_, s2⟩, ?_⟩
  · intro n e hn
    have := hall n e hn
    rwa [Nat.add_comm] at this
  · rw [kernelCalls_append, kernelCalls_append, hk, kernelCalls_stage _ _ _ _ _ _ s0,
      kernelCalls_stage _ _ _ _ _ _ s2, hK2]
    rfl

theorem stage_indices (K : Nat) (hK : 2 ≤ K) :
    ((Stage.s16_32, 0) ::
      ((List.range' 1 (K - 2)).map (fun j => (Stage.s32_32, j)) ++
        [(Stage.s32_16, K - 1)])).map Prod.snd = List.range K := by
  obtain ⟨n, rfl⟩ : ∃ n, K = n + 2 := ⟨K - 2, by omega⟩
  have h1 : List.map (Prod.snd ∘ fun j => (Stage.s32_32, j)) (List.range' 1 n) =
      List.range' 1 n := by
    rw [show (Prod.snd ∘ fun j => (Stage.s32_32, j)) = (id : Nat → Nat) from rfl, List.map_id]
  simp only [List.map_cons, List.map_append, List.map_map, List.map_nil, h1,
    Nat.add_sub_cancel, show n + 2 - 1 = n + 1 by omega]
  rw [List.range_eq_range', show n + 2 = (n + 1) + 1 from rfl, List.range'_succ,
    List.range'_concat]
  simp [Nat.add_comm]

/-! ## Stage sequencing (C9) -/

/-- C9: for every rank `K ≥ 2`, in `matacc_cache32` and in `matacc_opt32`, the calls of
a run are the first-stage group for `j = 0`, then `K - 2` middle-stage groups for
`j = 1, ..., K - 2` in increasing order, then the last-stage group for `j = K - 1`; in
each group the kernel receives index `j` (for `b->vec[j]` and `b_prime->vec[j]`) and the
block squeezed for the coordinate pair of that `j`.  So the kernels run in the order
first, middle (K-2 times), last, and the indices they process are `0, 1, ..., K - 1`,
each once. -/
theorem stage_sequencing (E : Ext) (K : Nat) (hK : 2 ≤ K) (m : Mem) (i : Nat)
    (transposed : Int) :
    IsRun Mode.cache K i transposed (newEvents m (matacc_cache32 E K m i transposed)) ∧
    IsRun Mode.opt K i transposed (newEvents m (matacc_opt32 E K m i transposed)) ∧
    kernelCalls (newEvents m (matacc_cache32 E K m i transposed)) =
      (Stage.s16_32, 0) ::
        ((List.range' 1 (K - 2)).map (fun j => (Stage.s32_32, j)) ++ [(Stage.s32_16, K - 1)]) ∧
    kernelCalls (newEvents m (matacc_opt32 E K m i transposed)) =
      (Stage.s16_32, 0) ::
        ((List.range' 1 (K - 2)).map (fun j => (Stage.s32_32, j)) ++ [(Stage.s32_16, K - 1)]) ∧
    (kernelCalls (newEvents m (matacc_cache32 E K m i transposed))).map Prod.snd =
      List.range K ∧
    (kernelCalls (newEvents m (matacc_opt32 E K m i transposed))).map Prod.snd =
      List.range K := by
  have hc := run_log Mode.cache K hK i transposed
    (fun j m => call_cache_16_32 E j (draw E i transposed j m))
    (fun j m => call_cache_32_32 E j (draw E i transposed j m))
    (fun j m => call_cache_32_16 E j (draw E i transposed j m))
    (stage_log_cache_16_32 E i transposed) (stage_log_cache_32_32 E i transposed)
    (stage_log_cache_32_16 E i transposed) m
  have ho := run_log Mode.opt K hK i transposed
    (fun j m => call_opt_16_32 E j (draw E i transposed j m))
    (fun j m => call_opt_32_32 E j (draw E i transposed j m))
    (fun j m => call_opt_32_16 E j (draw E i transposed j m))
    (stage_log_opt_16_32 E i transposed) (stage_log_opt_32_32 E i transposed)
    (stage_log_opt_32_16 E i transposed) m
  refine ⟨hc.1, ho.1, hc.2, ho.2, ?_, ?_⟩
  · exact (congrArg (List.map Prod.snd) hc.2).trans (stage_indices K hK)
  · exact (congrArg (List.map Prod.snd) ho.2).trans (stage_indices K hK)

/-- C9 at rank 4 on the toy instance: stages first, middle, middle, last for
`j = 0, 1, 2, 3`. -/
theorem stage_sequencing_witness :
    2 ≤ 4 ∧
    kernelCalls (newEvents toyMem (matacc_cache32 toyExt 4 toyMem 1 0)) =
      [(Stage.s16_32, 0), (Stage.s32_32, 1), (Stage.s32_32, 2), (Stage.s32_16, 3)] ∧
    kernelCalls (newEvents toyMem (matacc_opt32 toyExt 4 toyMem 1 0)) =
      [(Stage.s16_32, 0), (Stage.s32_32, 1), (Stage.s32_32, 2), (Stage.s32_16, 3)] :=
  ⟨by decide, (stage_sequencing toyExt 4 (by decide) toyMem 1 0).2.2.1,
    (stage_sequencing toyExt 4 (by decide) toyMem 1 0).2.2.2.1⟩

/-! ## Non-mutation of inputs (C7) -/

/-- C7: for every rank and whatever the collaborators are, `matacc_cache32` leaves the
vector `b` and `seed` as they were (it can change only `r` and `b_prime` among the
caller's objects), and `matacc_opt32` leaves `b`, `seed` and the cache vector `b_prime`
as they were (it can change only `r`). -/
theorem inputs_not_mutated (E : Ext) (K : Nat) (m : Mem) (i : Nat) (transposed : Int) :
    (matacc_cache32 E K m i transposed).b = m.b ∧
    (matacc_cache32 E K m i transposed).seed = m.seed ∧
    (matacc_opt32 E K m i transposed).b = m.b ∧
    (matacc_opt32 E K m i transposed).seed = m.seed ∧
    (matacc_opt32 E K m i transposed).b_prime = m.b_prime := by
  have hc := for_loop_keeps (fun x => x.b = m.b ∧ x.seed = m.seed) K
    (fun j x => call_cache_32_32 E j (draw E i transposed j x))
    (fun j x hx => by simpa [call_cache_32_32] using hx) K 1 (cache_first E i transposed m)
    (by simp [cache_first, call_cache_16_32])
  have ho := for_loop_keeps (fun x => x.b = m.b ∧ x.seed = m.seed ∧ x.b_prime = m.b_prime) K
    (fun j x => call_opt_32_32 E j (draw E i transposed j x))
    (fun j x hx => by simpa [call_opt_32_32] using hx) K 1 (opt_first E i transposed m)
    (by simp [opt_first, call_opt_16_32])
  refine ⟨?_, ?_, ?_, ?_, ?_⟩
  · simpa [matacc_cache32, cache_last, call_cache_32_16, cache_loop] using hc.1
  · simpa [matacc_cache32, cache_last, call_cache_32_16, cache_loop] using hc.2
  · simpa [matacc_opt32, opt_last, call_opt_32_16, opt_loop] using ho.1
  · simpa [matacc_opt32, opt_last, call_opt_32_16, opt_loop] using ho.2.1
  · simpa [matacc_opt32, opt_last, call_opt_32_16, opt_loop] using ho.2.2

/-! ## Vector slots -/

theorem slot_put_same (v : polyvec) (j : Nat) (cs : List Int) (h : j < v.vec.length) :
    (v.put j cs).slot j = cs := by
  simp [polyvec.slot, polyvec.put, List.getD_eq_getElem?_getD, List.getElem?_set, h]

theorem slot_put_ne (v : polyvec) (j k : Nat) (cs : List Int) (h : j ≠ k) :
    (v.put j cs).slot k = v.slot k := by
  simp [polyvec.slot, polyvec.put, List.getD_eq_getElem?_getD, List.getElem?_set, h]

@[simp] theorem put_length (v : polyvec) (j : Nat) (cs : List Int) :
    (v.put j cs).vec.length = v.vec.length := by
  simp [polyvec.put]

theorem polyvec_ext (v w : polyvec) (hlen : v.vec.length = w.vec.length)
    (h : ∀ k, k < v.vec.length → v.slot k = w.slot k) : v = w := by
  cases v with
  | mk vs =>
    cases w with
    | mk ws =>
      simp only [polyvec.mk.injEq]
      apply List.ext_getElem hlen
      intro k h1 h2
      have := h k h1
      simp only [polyvec.slot, List.getD_eq_getElem?_getD, List.getElem?_eq_getElem h1,
        List.getElem?_eq_getElem h2, Option.getD_some] at this
      cases hv : vs[k] with
      | mk a =>
        cases hw : ws[k] with
        | mk b =>
          rw [hv, hw] at this
          simpa using this

/-! ## Loop invariants -/

/-- An invariant indexed by the loop counter: if every iteration carries it from `j` to
`j + 1`, it holds at the exit for the exit value of `j`. -/
theorem for_loop_inv (P : Nat → Mem → Prop) (K : Nat) (body : Nat → Mem → Mem)
    (hstep : ∀ j m, j < K - 1 → P j m → P (j + 1) (body j m)) :
    ∀ fuel j m, P j m → P (for_loop K body fuel j m).1 (for_loop K body fuel j m).2 := by
  intro fuel
  induction fuel with
  | zero => intro j m h; exact h
  | succ n ih =>
    intro j m h
    unfold for_loop
    split
    · rename_i hlt
      exact ih _ _ (hstep j m hlt h)
    · exact h

/-- Two loops run in lockstep: a relation between the two memories that every pair of
iterations carries from `j` to `j + 1` holds at the exit, and both exit with the same
`j`. -/
theorem for_loop_rel (R : Nat → Mem → Mem → Prop) (K : Nat) (body body' : Nat → Mem → Mem)
    (hstep : ∀ j x y, j < K - 1 → R j x y → R (j + 1) (body j x) (body' j y)) :
    ∀ fuel j x y, R j x y →
      R (for_loop K body fuel j x).1 (for_loop K body fuel j x).2 (for_loop K body' fuel j y).2 ∧
      (for_loop K body' fuel j y).1 = (for_loop K body fuel j x).1 := by
  intro fuel
  induction fuel with
  | zero => intro j x y h; exact ⟨h, rfl⟩
  | succ n ih =>
    intro j x y h
    unfold for_loop
    split
    · rename_i hlt
      exact ih _ _ _ (hstep j x y hlt h)
    · exact ⟨h, rfl⟩

/-! ## The keystream under the stream contract -/

theorem draw_state_eq (E : Ext) (hS : StreamContract E) (i : Nat) (t : Int) (j : Nat)
    (x y : Mem) (hseed : y.seed = x.seed) :
    (draw E i t j y).state = (draw E i t j x).state := by
  rw [draw_state, draw_state, hseed, hS.absorb_fresh y.state x.state,
    hS.squeeze_state y.buf x.buf]

theorem draw_sameBlock (E : Ext) (hS : StreamContract E) (i : Nat) (t : Int) (j : Nat)
    (x y : Mem) (hseed : y.seed = x.seed) :
    SameBlock E.XOF_BLOCKBYTES (draw E i t j x).buf (draw E i t j y).buf := by
  rw [draw_buf, draw_buf, hseed, hS.absorb_fresh y.state x.state]
  exact hS.squeeze_block _ _ _

/-! ## Cache production (C4) -/

theorem cacheUpTo_step (E : Ext) (tr : List Int → List Int → List Int) (m : Mem) (j : Nat)
    (x : Mem) (hj : j < m.b_prime.vec.length) (h : CacheUpTo E tr m j x) (x' : Mem)
    (w : List Int) (hb : x'.b = x.b) (hbp : x'.b_prime = x.b_prime.put j w)
    (hw : w = tr E.zetas (x.b.slot j)) :
    CacheUpTo E tr m (j + 1) x' := by
  obtain ⟨h1, h2, h3, h4⟩ := h
  refine ⟨by rw [hb, h1], by rw [hbp, put_length, h2], ?_, ?_⟩
  · intro k hk
    rw [hbp]
    by_cases hkj : k = j
    · subst hkj
      rw [slot_put_same _ _ _ (by omega), hw, h1]
    · rw [slot_put_ne _ _ _ _ (Ne.symm hkj)]
      exact h3 k (by omega)
  · intro k hk
    rw [hbp, slot_put_ne _ _ _ _ (by omega)]
    exact h4 k (by omega)

theorem cache_slots (E : Ext) (K : Nat) (hK : 2 ≤ K) (tr : List Int → List Int → List Int)
    (hT : CacheWritesTransform E tr) (m : Mem) (i : Nat) (t : Int)
    (hlen : K ≤ m.b_prime.vec.length) :
    CacheUpTo E tr m K (matacc_cache32 E K m i t) := by
  have h1 : CacheUpTo E tr m 1 (cache_first E i t m) :=
    cacheUpTo_step E tr m 0 (draw E i t 0 m) (by omega)
      ⟨by simp, by simp, fun k hk => by omega, fun k _ => by simp⟩ _ _ rfl rfl
      (hT.first _ _ _ _ _ _)
  have hloop := for_loop_inv (fun j x => j ≤ K - 1 ∧ CacheUpTo E tr m j x) K
    (fun j x => call_cache_32_32 E j (draw E i t j x))
    (fun j x hj hx => ⟨by omega,
      cacheUpTo_step E tr m j (draw E i t j x) (by omega)
        ⟨by simpa using hx.2.1, by simpa using hx.2.2.1, by simpa using hx.2.2.2.1,
          by simpa using hx.2.2.2.2⟩ _ _ rfl rfl (hT.middle _ _ _ _ _ _)⟩)
    K 1 (cache_first E i t m) ⟨by omega, h1⟩
  have hj := for_loop_exit K (fun j x => call_cache_32_32 E j (draw E i t j x)) K 1
    (cache_first E i t m) (by omega) (by omega)
  rw [hj] at hloop
  have hrun : matacc_cache32 E K m i t = call_cache_32_16 E (K - 1)
      (draw E i t (K - 1) (cache_loop E K i t (cache_first E i t m)).2) := by
    simp only [matacc_cache32, cache_last, cache_loop, hj]
  have hlast := cacheUpTo_step E tr m (K - 1)
    (draw E i t (K - 1) (cache_loop E K i t (cache_first E i t m)).2) (by omega)
    ⟨by simpa using hloop.2.1, by simpa using hloop.2.2.1, by simpa using hloop.2.2.2.1,
      by simpa using hloop.2.2.2.2⟩
    (call_cache_32_16 E (K - 1)
      (draw E i t (K - 1) (cache_loop E K i t (cache_first E i t m)).2)) _ rfl rfl
    (hT.last _ _ _ _ _ _ _)
  rw [show K - 1 + 1 = K by omega] at hlast
  rw [hrun]
  exact hlast

/-- C4: for every rank `K ≥ 2`, if each cache kernel writes to its cache slot the
transformed copy `tr zetas b` of the vector element `b` it is given, then after
`matacc_cache32` on a cache vector of at least `K` slots, slot `j` holds
`tr zetas b[j]` for every `j < K`, the other slots are untouched, the slot indices the
kernel calls received are `0, ..., K - 1`, each once, and the content of slot `j` is
the same for any other seed, row index, `transposed` and prior memory with the same
vector. -/
theorem cache_production (E : Ext) (K : Nat) (hK : 2 ≤ K)
    (tr : List Int → List Int → List Int) (hT : CacheWritesTransform E tr)
    (m : Mem) (i : Nat) (transposed : Int) (hlen : K ≤ m.b_prime.vec.length) :
    (∀ j, j < K →
      (matacc_cache32 E K m i transposed).b_prime.slot j = tr E.zetas (m.b.slot j)) ∧
    (∀ j, K ≤ j → (matacc_cache32 E K m i transposed).b_prime.slot j = m.b_prime.slot j) ∧
    (kernelCalls (newEvents m (matacc_cache32 E K m i transposed))).map Prod.snd =
      List.range K ∧
    (∀ (m' : Mem) (i' : Nat) (transposed' : Int), m'.b = m.b → K ≤ m'.b_prime.vec.length →
      ∀ j, j < K → (matacc_cache32 E K m' i' transposed').b_prime.slot j =
        (matacc_cache32 E K m i transposed).b_prime.slot j) := by
  have h := cache_slots E K hK tr hT m i transposed hlen
  refine ⟨h.2.2.1, h.2.2.2, ?_, ?_⟩
  · have hc := run_log Mode.cache K hK i transposed
      (fun j m => call_cache_16_32 E j (draw E i transposed j m))
      (fun j m => call_cache_32_32 E j (draw E i transposed j m))
      (fun j m => call_cache_32_16 E j (draw E i transposed j m))
      (stage_log_cache_16_32 E i transposed) (stage_log_cache_32_32 E i transposed)
      (stage_log_cache_32_16 E i transposed) m
    exact (congrArg (List.map Prod.snd) hc.2).trans (stage_indices K hK)
  · intro m' i' t' hb hlen' j hj
    have h' := cache_slots E K hK tr hT m' i' t' hlen'
    rw [h'.2.2.1 j hj, h.2.2.1 j hj, hb]

theorem specExtWith_writes_transform (w : Int → Int) (S : SpecParams) :
    CacheWritesTransform (specExtWith w S) S.mulcache :=
  ⟨fun _ _ _ _ _ _ => rfl, fun _ _ _ _ _ _ => rfl, fun _ _ _ _ _ _ _ => rfl⟩

/-- C4 on the toy instance (rank 3, row 1, not transposed): the three cache slots hold
the transformed copies of the three vector elements. -/
theorem cache_production_witness :
    2 ≤ 3 ∧ CacheWritesTransform toyExt toyParams.mulcache ∧
    3 ≤ toyMem.b_prime.vec.length ∧
    (matacc_cache32 toyExt 3 toyMem 1 0).b_prime.slot 0 =
      toyParams.mulcache toyExt.zetas (toyMem.b.slot 0) ∧
    (matacc_cache32 toyExt 3 toyMem 1 0).b_prime.slot 1 =
      toyParams.mulcache toyExt.zetas (toyMem.b.slot 1) ∧
    (matacc_cache32 toyExt 3 toyMem 1 0).b_prime.slot 2 =
      toyParams.mulcache toyExt.zetas (toyMem.b.slot 2) :=
  ⟨by decide, specExtWith_writes_transform wrap32 toyParams, by decide,
    (cache_production toyExt 3 (by decide) toyParams.mulcache
      (specExtWith_writes_transform wrap32 toyParams) toyMem 1 0 (by decide)).1 0 (by decide),
    (cache_production toyExt 3 (by decide) toyParams.mulcache
      (specExtWith_writes_transform wrap32 toyParams) toyMem 1 0 (by decide)).1 1 (by decide),
    (cache_production toyExt 3 (by decide) toyParams.mulcache
      (specExtWith_writes_transform wrap32 toyParams) toyMem 1 0 (by decide)).1 2 (by decide)⟩

/-! ## Determinism (C8) -/

theorem sameSoFar_draw (E : Ext) (i : Nat) (t : Int) (j j' : Nat) (x y : Mem)
    (h : SameSoFar j x y) : SameSoFar j (draw E i t j' x) (draw E i t j' y) := by
  simpa [SameSoFar] using h

theorem sameSoFar_put (j : Nat) (x y x' y' : Mem) (w : List Int)
    (h : SameSoFar j x y) (hj : j < x.b_prime.vec.length)
    (hxb : x'.b = x.b) (hyb : y'.b = y.b) (hxs : x'.seed = x.seed) (hys : y'.seed = y.seed)
    (hx : x'.b_prime = x.b_prime.put j w) (hy : y'.b_prime = y.b_prime.put j w) :
    SameSoFar (j + 1) x' y' := by
  obtain ⟨h1, h2, h3, h4⟩ := h
  refine ⟨by rw [hyb, hxb, h1], by rw [hys, hxs, h2], by rw [hx, hy, put_length, put_length, h3],
    ?_⟩
  intro k hk
  rw [hx, hy]
  by_cases hkj : k = j
  · subst hkj
    rw [slot_put_same _ _ _ hj, slot_put_same _ _ _ (by omega)]
  · rw [slot_put_ne _ _ _ _ (Ne.symm hkj), slot_put_ne _ _ _ _ (Ne.symm hkj)]
    exact h4 k (by omega)

theorem cache_first_same (E : Ext) (hS : StreamContract E) (hF : CacheKernelsFunctional E)
    (i : Nat) (t : Int) (x y : Mem) (h : SameSoFar 0 x y) (hlen : 0 < x.b_prime.vec.length) :
    SameSoFar 1 (cache_first E i t x) (cache_first E i t y) ∧
      (cache_first E i t y).r_tmp = (cache_first E i t x).r_tmp := by
  have hst := draw_state_eq E hS i t 0 x y h.2.1
  have hbl := draw_sameBlock E hS i t 0 x y h.2.1
  have hk := hF.first (draw E i t 0 x).r_tmp (draw E i t 0 y).r_tmp ((draw E i t 0 x).b.slot 0)
    (draw E i t 0 x).c (draw E i t 0 y).c _ _ (draw E i t 0 x).state
    ((draw E i t 0 x).b_prime.slot 0) ((draw E i t 0 y).b_prime.slot 0) hbl
  have hb : (draw E i t 0 y).b = (draw E i t 0 x).b := by simpa using h.1
  refine ⟨sameSoFar_put 0 (draw E i t 0 x) (draw E i t 0 y) _ _ _
    (sameSoFar_draw E i t 0 0 x y h) (by simpa using hlen) rfl rfl rfl rfl rfl ?_, ?_⟩
  · simp only [cache_first, call_cache_16_32, hb, hst]
    rw [hk.2]
  · simp only [cache_first, call_cache_16_32, hb, hst]
    rw [hk.1]

theorem cache_middle_same (E : Ext) (hS : StreamContract E) (hF : CacheKernelsFunctional E)
    (i : Nat) (t : Int) (j : Nat) (x y : Mem) (h : SameSoFar j x y)
    (hrt : y.r_tmp = x.r_tmp) (hlen : j < x.b_prime.vec.length) :
    SameSoFar (j + 1) (call_cache_32_32 E j (draw E i t j x))
        (call_cache_32_32 E j (draw E i t j y)) ∧
      (call_cache_32_32 E j (draw E i t j y)).r_tmp =
        (call_cache_32_32 E j (draw E i t j x)).r_tmp := by
  have hst := draw_state_eq E hS i t j x y h.2.1
  have hbl := draw_sameBlock E hS i t j x y h.2.1
  have hk := hF.middle (draw E i t j x).r_tmp ((draw E i t j x).b.slot j)
    (draw E i t j x).c (draw E i t j y).c _ _ (draw E i t j x).state
    ((draw E i t j x).b_prime.slot j) ((draw E i t j y).b_prime.slot j) hbl
  have hb : (draw E i t j y).b = (draw E i t j x).b := by simpa using h.1
  have hr : (draw E i t j y).r_tmp = (draw E i t j x).r_tmp := by simpa using hrt
  refine ⟨sameSoFar_put j (draw E i t j x) (draw E i t j y) _ _ _
    (sameSoFar_draw E i t j j x y h) (by simpa using hlen) rfl rfl rfl rfl rfl ?_, ?_⟩
  · simp only [call_cache_32_32, hb, hst, hr]
    rw [hk.2]
  · simp only [call_cache_32_32, hb, hst, hr]
    rw [hk.1]

theorem cache_last_same (E : Ext) (hS : StreamContract E) (hF : CacheKernelsFunctional E)
    (i : Nat) (t : Int) (j : Nat) (x y : Mem) (h : SameSoFar j x y)
    (hrt : y.r_tmp = x.r_tmp) (hlen : j < x.b_prime.vec.length) :
    SameSoFar (j + 1) (call_cache_32_16 E j (draw E i t j x))
        (call_cache_32_16 E j (draw E i t j y)) ∧
      (call_cache_32_16 E j (draw E i t j y)).r =
        (call_cache_32_16 E j (draw E i t j x)).r := by
  have hst := draw_state_eq E hS i t j x y h.2.1
  have hbl := draw_sameBlock E hS i t j x y h.2.1
  have hk := hF.last (draw E i t j x).r.coeffs (draw E i t j y).r.coeffs
    ((draw E i t j x).b.slot j)
    (draw E i t j x).c (draw E i t j y).c _ _ (draw E i t j x).state
    ((draw E i t j x).b_prime.slot j) ((draw E i t j y).b_prime.slot j)
    (draw E i t j x).r_tmp hbl
  have hb : (draw E i t j y).b = (draw E i t j x).b := by simpa using h.1
  have hr : (draw E i t j y).r_tmp = (draw E i t j x).r_tmp := by simpa using hrt
  refine ⟨sameSoFar_put j (draw E i t j x) (draw E i t j y) _ _ _
    (sameSoFar_draw E i t j j x y h) (by simpa using hlen) rfl rfl rfl rfl rfl ?_, ?_⟩
  · simp only [call_cache_32_16, hb, hst, hr]
    rw [hk.2]
  · simp only [call_cache_32_16, hb, hst, hr]
    rw [hk.1]

/-- C8: for every rank `K ≥ 2`, under the stream contract and with cache kernels that are
functions of their inputs, two runs of `matacc_cache32` with the same seed, vector, row
index and `transposed` end with the same output polynomial and the same cache vector,
whatever `r`, the `K` cache slots, `buf`, `c`, `r_tmp`, the stream state (and the log)
held before each run. -/
theorem determinism (E : Ext) (K : Nat) (hK : 2 ≤ K) (hS : StreamContract E)
    (hF : CacheKernelsFunctional E) (m m' : Mem) (i : Nat) (transposed : Int)
    (hb : m'.b = m.b) (hseed : m'.seed = m.seed)
    (hlen : m.b_prime.vec.length = K) (hlen' : m'.b_prime.vec.length = K) :
    (matacc_cache32 E K m' i transposed).r = (matacc_cache32 E K m i transposed).r ∧
    (matacc_cache32 E K m' i transposed).b_prime =
      (matacc_cache32 E K m i transposed).b_prime := by
  have h0 : SameSoFar 0 m m' := ⟨hb, hseed, by rw [hlen, hlen'], fun k hk => by omega⟩
  have h1 := cache_first_same E hS hF i transposed m m' h0 (by omega)
  have hloop := for_loop_rel
    (fun j x y => j ≤ K - 1 ∧ x.b_prime.vec.length = K ∧ SameSoFar j x y ∧ y.r_tmp = x.r_tmp) K
    (fun j x => call_cache_32_32 E j (draw E i transposed j x))
    (fun j x => call_cache_32_32 E j (draw E i transposed j x))
    (fun j x y hj h => ⟨by omega, by simpa [call_cache_32_32] using h.2.1,
      cache_middle_same E hS hF i transposed j x y h.2.2.1 h.2.2.2 (by omega)⟩)
    K 1 (cache_first E i transposed m) (cache_first E i transposed m')
    ⟨by omega, by simpa [cache_first, call_cache_16_32] using hlen, h1⟩
  have hj := for_loop_exit K (fun j x => call_cache_32_32 E j (draw E i transposed j x)) K 1
    (cache_first E i transposed m) (by omega) (by omega)
  obtain ⟨⟨-, hl, hsame, hrt⟩, hj'⟩ := hloop
  rw [hj] at hsame hj'
  have hlast := cache_last_same E hS hF i transposed (K - 1) _ _ hsame hrt (by omega)
  have hrun : matacc_cache32 E K m i transposed = call_cache_32_16 E (K - 1)
      (draw E i transposed (K - 1)
        (for_loop K (fun j x => call_cache_32_32 E j (draw E i transposed j x)) K 1
          (cache_first E i transposed m)).2) := by
    simp only [matacc_cache32, cache_last, cache_loop, hj]
  have hrun' : matacc_cache32 E K m' i transposed = call_cache_32_16 E (K - 1)
      (draw E i transposed (K - 1)
        (for_loop K (fun j x => call_cache_32_32 E j (draw E i transposed j x)) K 1
          (cache_first E i transposed m')).2) := by
    simp only [matacc_cache32, cache_last, cache_loop, hj']
  rw [hrun, hrun']
  refine ⟨hlast.2, polyvec_ext _ _ hlast.1.2.2.1 ?_⟩
  intro k hk
  refine hlast.1.2.2.2 k ?_
  rw [hlast.1.2.2.1] at hk
  have hl' : (call_cache_32_16 E (K - 1) (draw E i transposed (K - 1)
      (for_loop K (fun j x => call_cache_32_32 E j (draw E i transposed j x)) K 1
        (cache_first E i transposed m)).2)).b_prime.vec.length = K := by
    simpa [call_cache_32_16] using hl
  omega

/-! ## Cache/opt equivalence (C1) -/

/-- The rest of a cache run, from loop counter `j` on, writes no cache slot below `j`. -/
theorem cache_rest_untouched (E : Ext) (K i : Nat) (t : Int) (fuel j : Nat) (x : Mem)
    (k : Nat) (hk : k < j) :
    (cache_last E i t
      (for_loop K (fun j x => call_cache_32_32 E j (draw E i t j x)) fuel j x)).b_prime.slot k =
      x.b_prime.slot k := by
  have h := for_loop_inv (fun j' x' => j ≤ j' ∧ x'.b_prime.slot k = x.b_prime.slot k) K
    (fun j x => call_cache_32_32 E j (draw E i t j x))
    (fun j' x' _ hx => ⟨by omega, by
      rw [← hx.2]
      simp only [call_cache_32_32, draw_b_prime]
      exact slot_put_ne _ _ _ _ (by omega)⟩)
    fuel j x ⟨le_refl j, rfl⟩
  rw [← h.2]
  simp only [cache_last, call_cache_32_16, draw_b_prime]
  exact slot_put_ne _ _ _ _ (by omega)

/-- Last stage of both runs: with equal accumulators and the cache slot the cache kernel
writes, the opt kernel leaves the same output polynomial. -/
theorem last_stage_equiv (E : Ext) (hS : StreamContract E) (hM : OptMatchesCache E)
    (i : Nat) (t : Int) (j : Nat) (xc xo : Mem) (hb : xo.b = xc.b) (hseed : xo.seed = xc.seed)
    (hrt : xo.r_tmp = xc.r_tmp) (hj : j < xc.b_prime.vec.length)
    (hslot : xo.b_prime.slot j = (call_cache_32_16 E j (draw E i t j xc)).b_prime.slot j) :
    (call_opt_32_16 E j (draw E i t j xo)).r = (call_cache_32_16 E j (draw E i t j xc)).r := by
  have hst := draw_state_eq E hS i t j xc xo hseed
  have hbl := draw_sameBlock E hS i t j xc xo hseed
  have hw : (call_cache_32_16 E j (draw E i t j xc)).b_prime.slot j =
      (E.matacc_asm_cache_32_16 (draw E i t j xc).r.coeffs ((draw E i t j xc).b.slot j)
        (draw E i t j xc).c (draw E i t j xc).buf E.zetas (draw E i t j xc).state
        ((draw E i t j xc).b_prime.slot j) (draw E i t j xc).r_tmp).b_prime := by
    simp only [call_cache_32_16]
    exact slot_put_same _ _ _ (by simpa using hj)
  have hk := hM.last (draw E i t j xc).r.coeffs (draw E i t j xo).r.coeffs
    ((draw E i t j xc).b.slot j) (draw E i t j xc).c (draw E i t j xo).c _ _
    (draw E i t j xc).state ((draw E i t j xc).b_prime.slot j) (draw E i t j xc).r_tmp hbl
  rw [hw] at hslot
  simp only [call_opt_32_16, call_cache_32_16, draw_b, draw_b_prime, draw_r_tmp, hb, hst, hrt,
    hslot, poly.mk.injEq] at hk ⊢
  exact hk

/-- Middle stage of both runs: with equal accumulators and the cache slot the cache kernel
writes, the opt kernel leaves the same accumulator. -/
theorem middle_stage_equiv (E : Ext) (hS : StreamContract E) (hM : OptMatchesCache E)
    (i : Nat) (t : Int) (j : Nat) (xc xo : Mem) (hb : xo.b = xc.b) (hseed : xo.seed = xc.seed)
    (hrt : xo.r_tmp = xc.r_tmp) (hj : j < xc.b_prime.vec.length)
    (hslot : xo.b_prime.slot j = (call_cache_32_32 E j (draw E i t j xc)).b_prime.slot j) :
    (call_opt_32_32 E j (draw E i t j xo)).r_tmp =
      (call_cache_32_32 E j (draw E i t j xc)).r_tmp := by
  have hst := draw_state_eq E hS i t j xc xo hseed
  have hbl := draw_sameBlock E hS i t j xc xo hseed
  have hw : (call_cache_32_32 E j (draw E i t j xc)).b_prime.slot j =
      (E.matacc_asm_cache_32_32 (draw E i t j xc).r_tmp ((draw E i t j xc).b.slot j)
        (draw E i t j xc).c (draw E i t j xc).buf E.zetas (draw E i t j xc).state
        ((draw E i t j xc).b_prime.slot j)).b_prime := by
    simp only [call_cache_32_32]
    exact slot_put_same _ _ _ (by simpa using hj)
  have hk := hM.middle (draw E i t j xc).r_tmp
    ((draw E i t j xc).b.slot j) (draw E i t j xc).c (draw E i t j xo).c _ _
    (draw E i t j xc).state ((draw E i t j xc).b_prime.slot j) hbl
  rw [hw] at hslot
  simp only [call_opt_32_32, call_cache_32_32, draw_b, draw_b_prime, draw_r_tmp, hb, hst, hrt,
    hslot] at hk ⊢
  exact hk

/-- First stage of both runs: with the cache slot the cache kernel writes, the opt kernel
leaves the same accumulator, whatever the accumulators held before. -/
theorem first_stage_equiv (E : Ext) (hS : StreamContract E) (hM : OptMatchesCache E)
    (i : Nat) (t : Int) (j : Nat) (xc xo : Mem) (hb : xo.b = xc.b) (hseed : xo.seed = xc.seed)
    (hj : j < xc.b_prime.vec.length)
    (hslot : xo.b_prime.slot j = (call_cache_16_32 E j (draw E i t j xc)).b_prime.slot j) :
    (call_opt_16_32 E j (draw E i t j xo)).r_tmp =
      (call_cache_16_32 E j (draw E i t j xc)).r_tmp := by
  have hst := draw_state_eq E hS i t j xc xo hseed
  have hbl := draw_sameBlock E hS i t j xc xo hseed
  have hw : (call_cache_16_32 E j (draw E i t j xc)).b_prime.slot j =
      (E.matacc_asm_cache_16_32 (draw E i t j xc).r_tmp ((draw E i t j xc).b.slot j)
        (draw E i t j xc).c (draw E i t j xc).buf E.zetas (draw E i t j xc).state
        ((draw E i t j xc).b_prime.slot j)).b_prime := by
    simp only [call_cache_16_32]
    exact slot_put_same _ _ _ (by simpa using hj)
  have hk := hM.first (draw E i t j xc).r_tmp (draw E i t j xo).r_tmp
    ((draw E i t j xc).b.slot j) (draw E i t j xc).c (draw E i t j xo).c _ _
    (draw E i t j xc).state ((draw E i t j xc).b_prime.slot j) hbl
  rw [hw] at hslot
  simp only [call_opt_16_32, call_cache_16_32, draw_b, draw_b_prime, draw_r_tmp, hb, hst,
    hslot] at hk ⊢
  exact hk

/-- The rest of both runs from loop counter `j` on: if the accumulators agree and, from
slot `j` on, the opt run reads the cache vector that the cache run ends with, both runs
end with the same output polynomial. -/
theorem rest_equiv (E : Ext) (hS : StreamContract E) (hM : OptMatchesCache E) (K : Nat)
    (hK : 1 ≤ K) (i : Nat) (t : Int) :
    ∀ fuel j xc xo, j ≤ K - 1 → K ≤ xc.b_prime.vec.length →
      xo.b = xc.b → xo.seed = xc.seed → xo.r_tmp = xc.r_tmp →
      (∀ k, j ≤ k → xo.b_prime.slot k =
        (cache_last E i t
          (for_loop K (fun j x => call_cache_32_32 E j (draw E i t j x)) fuel j xc)).b_prime.slot k) →
      (opt_last E i t
          (for_loop K (fun j x => call_opt_32_32 E j (draw E i t j x)) fuel j xo)).r =
        (cache_last E i t
          (for_loop K (fun j x => call_cache_32_32 E j (draw E i t j x)) fuel j xc)).r := by
  intro fuel
  induction fuel with
  | zero =>
    intro j xc xo hj hlen hb hseed hrt hslot
    exact last_stage_equiv E hS hM i t j xc xo hb hseed hrt (by omega) (hslot j (le_refl j))
  | succ f ih =>
    intro j xc xo hj hlen hb hseed hrt hslot
    by_cases hlt : j < K - 1
    · have hc : for_loop K (fun j x => call_cache_32_32 E j (draw E i t j x)) (f + 1) j xc =
          for_loop K (fun j x => call_cache_32_32 E j (draw E i t j x)) f (j + 1)
            (call_cache_32_32 E j (draw E i t j xc)) := by
        rw [for_loop, if_pos hlt]
      have ho : for_loop K (fun j x => call_opt_32_32 E j (draw E i t j x)) (f + 1) j xo =
          for_loop K (fun j x => call_opt_32_32 E j (draw E i t j x)) f (j + 1)
            (call_opt_32_32 E j (draw E i t j xo)) := by
        rw [for_loop, if_pos hlt]
      rw [hc] at hslot
      rw [hc, ho]
      have hsj : xo.b_prime.slot j =
          (call_cache_32_32 E j (draw E i t j xc)).b_prime.slot j := by
        rw [hslot j (le_refl j)]
        exact cache_rest_untouched E K i t f (j + 1) _ j (by omega)
      refine ih (j + 1) _ _ (by omega) (by simpa [call_cache_32_32] using hlen)
        (by simpa [call_cache_32_32, call_opt_32_32] using hb)
        (by simpa [call_cache_32_32, call_opt_32_32] using hseed)
        (middle_stage_equiv E hS hM i t j xc xo hb hseed hrt (by omega) hsj) ?_
      intro k hk
      have := hslot k (by omega)
      simpa [call_opt_32_32] using this
    · have hc : for_loop K (fun j x => call_cache_32_32 E j (draw E i t j x)) (f + 1) j xc =
          (j, xc) := by
        rw [for_loop, if_neg hlt]
      have ho : for_loop K (fun j x => call_opt_32_32 E j (draw E i t j x)) (f + 1) j xo =
          (j, xo) := by
        rw [for_loop, if_neg hlt]
      rw [hc] at hslot
      rw [hc, ho]
      exact last_stage_equiv E hS hM i t j xc xo hb hseed hrt (by omega) (hslot j (le_refl j))

/-- C1: for every rank `K ≥ 2`, seed, vector, row index and `transposed`: under the
stream contract and the contract of the opt kernels (given the cache slot written by the
cache kernel of the same stage, an opt kernel updates the accumulator exactly as that
cache kernel does), `matacc_opt32` run with the cache vector that
`matacc_cache32` wrote for the same vector, seed, row index and `transposed` ends with
the output polynomial `matacc_cache32` ended with, whatever `r` and the locals held before
either run. -/
theorem cache_opt_equivalence (E : Ext) (K : Nat) (hK : 2 ≤ K) (hS : StreamContract E)
    (hM : OptMatchesCache E) (m1 m2 : Mem) (i : Nat) (transposed : Int)
    (hb : m2.b = m1.b) (hseed : m2.seed = m1.seed) (hlen : K ≤ m1.b_prime.vec.length)
    (hbp : m2.b_prime = (matacc_cache32 E K m1 i transposed).b_prime) :
    (matacc_opt32 E K m2 i transposed).r = (matacc_cache32 E K m1 i transposed).r := by
  have hslot0 : m2.b_prime.slot 0 =
      (call_cache_16_32 E 0 (draw E i transposed 0 m1)).b_prime.slot 0 := by
    rw [hbp]
    exact cache_rest_untouched E K i transposed K 1 (cache_first E i transposed m1) 0 (by omega)
  have h1 := first_stage_equiv E hS hM i transposed 0 m1 m2 hb hseed (by omega) hslot0
  refine rest_equiv E hS hM K (by omega) i transposed K 1 (cache_first E i transposed m1)
    (opt_first E i transposed m2) (by omega)
    (by simpa [cache_first, call_cache_16_32] using hlen)
    (by simpa [cache_first, opt_first, call_cache_16_32, call_opt_16_32] using hb)
    (by simpa [cache_first, opt_first, call_cache_16_32, call_opt_16_32] using hseed)
    h1 ?_
  intro k _
  have : (opt_first E i transposed m2).b_prime = m2.b_prime := by
    simp [opt_first, call_opt_16_32]
  rw [this, hbp]
  rfl

/-! ## The model of the collaborators meets the contracts -/

theorem specExtWith_stream (w : Int → Int) (S : SpecParams)
    (hlen : ∀ st, S.blockbytes ≤ (S.squeeze_block st).1.length) :
    StreamContract (specExtWith w S) := by
  refine ⟨fun _ _ _ _ _ => rfl, fun _ _ _ => rfl, fun buf buf' st => ?_⟩
  have h := hlen st
  simp only [SameBlock, specExtWith, SpecParams.blocks, List.append_nil]
  rw [List.take_append_of_le_length (by simp [h]), List.take_append_of_le_length (by simp [h])]

theorem specExtWith_functional (w : Int → Int) (S : SpecParams) :
    CacheKernelsFunctional (specExtWith w S) := by
  refine ⟨?_, ?_, ?_⟩
  · intro rt rt' b c c' buf buf' st slot slot' h
    simp only [SameBlock, specExtWith] at h
    simp [specExtWith, SpecParams.prod, SpecParams.gen, h]
  · intro rt b c c' buf buf' st slot slot' h
    simp only [SameBlock, specExtWith] at h
    simp [specExtWith, SpecParams.prod, SpecParams.gen, h]
  · intro r r' b c c' buf buf' st slot slot' rt h
    simp only [SameBlock, specExtWith] at h
    simp [specExtWith, SpecParams.prod, SpecParams.gen, h]

theorem specExtWith_opt_matches (w : Int → Int) (S : SpecParams) :
    OptMatchesCache (specExtWith w S) := by
  refine ⟨?_, ?_, ?_⟩
  · intro rt rt' b c c' buf buf' st slot h
    simp only [SameBlock, specExtWith] at h
    simp [specExtWith, SpecParams.prod, SpecParams.gen, h]
  · intro rt b c c' buf buf' st slot h
    simp only [SameBlock, specExtWith] at h
    simp [specExtWith, SpecParams.prod, SpecParams.gen, h]
  · intro r r' b c c' buf buf' st slot rt h
    simp only [SameBlock, specExtWith] at h
    simp [specExtWith, SpecParams.prod, SpecParams.gen, h]

theorem toyParams_block (st : XofState) :
    toyParams.blockbytes ≤ (toyParams.squeeze_block st).1.length := by
  simp [toyParams]

/-- C1 on the toy instance: `matacc_opt32`, started from other contents of `r` and the
locals and fed the cache vector of the cache run, ends with the same output polynomial. -/
theorem cache_opt_equivalence_witness :
    2 ≤ 3 ∧ StreamContract toyExt ∧ OptMatchesCache toyExt ∧
    toyOptMem.b = toyMem.b ∧ toyOptMem.seed = toyMem.seed ∧ 3 ≤ toyMem.b_prime.vec.length ∧
    toyOptMem.b_prime = (matacc_cache32 toyExt 3 toyMem 1 0).b_prime ∧
    (matacc_opt32 toyExt 3 toyOptMem 1 0).r = (matacc_cache32 toyExt 3 toyMem 1 0).r :=
  ⟨by decide, specExtWith_stream wrap32 toyParams toyParams_block,
    specExtWith_opt_matches wrap32 toyParams, rfl, rfl, by decide, rfl,
    cache_opt_equivalence toyExt 3 (by decide)
      (specExtWith_stream wrap32 toyParams toyParams_block)
      (specExtWith_opt_matches wrap32 toyParams) toyMem toyOptMem 1 0 rfl rfl (by decide) rfl⟩

/-- C8 on the toy instance: two runs from memories that differ in `r`, the cache slots and
every local end with the same output polynomial and cache vector. -/
theorem determinism_witness :
    2 ≤ 3 ∧ StreamContract toyExt ∧ CacheKernelsFunctional toyExt ∧
    toyMem2.b = toyMem.b ∧ toyMem2.seed = toyMem.seed ∧
    toyMem.b_prime.vec.length = 3 ∧ toyMem2.b_prime.vec.length = 3 ∧
    (matacc_cache32 toyExt 3 toyMem2 2 1).r = (matacc_cache32 toyExt 3 toyMem 2 1).r ∧
    (matacc_cache32 toyExt 3 toyMem2 2 1).b_prime =
      (matacc_cache32 toyExt 3 toyMem 2 1).b_prime :=
  ⟨by decide, specExtWith_stream wrap32 toyParams toyParams_block,
    specExtWith_functional wrap32 toyParams, rfl, rfl, rfl, rfl,
    determinism toyExt 3 (by decide) (specExtWith_stream wrap32 toyParams toyParams_block)
      (specExtWith_functional wrap32 toyParams) toyMem toyMem2 2 1 rfl rfl rfl rfl⟩

/-! ## The keystream and the products of a run -/

theorem gen_draw (E : Ext) (hS : StreamContract E) (gen : Bytes → XofState → List Int)
    (hgen : ∀ buf buf' st, SameBlock E.XOF_BLOCKBYTES buf buf' → gen buf st = gen buf' st)
    (i : Nat) (t : Int) (j : Nat) (x : Mem) :
    gen (draw E i t j x).buf (draw E i t j x).state = rowPoly E gen x.seed i t j := by
  rw [draw_buf, draw_state, rowPoly, hS.absorb_fresh x.state [], hS.squeeze_state x.buf []]
  exact hgen _ _ _ (hS.squeeze_block _ _ _)

theorem congrMod_map (q : Int) (red : Int → Int) (hred : ∀ x, red x ≡ x [ZMOD q])
    (l : List Int) : CongrMod q (l.map red) l := by
  induction l with
  | nil => exact List.Forall₂.nil
  | cons a l ih => exact List.Forall₂.cons (hred a) ih

theorem specParams_gen_block (w : Int → Int) (S : SpecParams) (buf buf' : Bytes)
    (st : XofState) (h : SameBlock (specExtWith w S).XOF_BLOCKBYTES buf buf') :
    S.gen buf st = S.gen buf' st := by
  simp only [SameBlock, specExtWith] at h
  simp [SpecParams.gen, h]

theorem red_modEq (S : SpecParams) (x : Int) : S.red x ≡ x [ZMOD S.q] :=
  Int.mod_modEq x S.q

theorem toyOptMem_slots (j : Nat) (hj : j < KYBER_K) :
    toyOptMem.b_prime.slot j = toyParams.mulcache toyExt.zetas (toyOptMem.b.slot j) := by
  have h : j = 0 ∨ j = 1 ∨ j = 2 := by
    simp only [KYBER_K] at hj
    omega
  rcases h with rfl | rfl | rfl <;> decide

/-! ## Zero polynomials -/

theorem padd_zero (N : Nat) : padd (List.replicate N 0) (List.replicate N 0) =
    List.replicate N 0 := by
  simp [padd, List.zipWith_replicate]

theorem zeroVec_slot (K N j : Nat) (hj : j < K) :
    (zeroVec K N).slot j = List.replicate N 0 := by
  simp [zeroVec, zeroPoly, polyvec.slot, List.getD_eq_getElem?_getD, hj]

theorem toy_mul_zero (buf : Bytes) (st : XofState) :
    toyParams.mul (toyParams.gen buf st) (List.replicate 4 0) = List.replicate 4 0 := by
  have hlen : (toyParams.gen buf st).length = 4 := by
    simp [SpecParams.gen, toyParams]
  match h : toyParams.gen buf st, hlen with
  | [a0, a1, a2, a3], _ =>
    simp [SpecParams.mul, SpecParams.mulcache, SpecParams.red, basemul, toyParams,
      List.replicate]

/-! ## No accumulator overflow (C5) -/

theorem wrap32_eq (z : Int) (h : |z| ≤ 2 ^ 31 - 1) : wrap32 z = z := by
  have h1 := abs_le.mp h
  unfold wrap32
  norm_num at h1 ⊢
  omega

theorem boundedBy_inInt32 (B : Int) (l : List Int) (h : BoundedBy B l)
    (hB : B ≤ 2 ^ 31 - 1) : InInt32 l := by
  intro x hx
  have h1 := abs_le.mp (le_trans (h x hx) hB)
  constructor <;> linarith [h1.1, h1.2]

theorem map_wrap32_eq (B : Int) (l : List Int) (h : BoundedBy B l) (hB : B ≤ 2 ^ 31 - 1) :
    l.map wrap32 = l := by
  induction l with
  | nil => rfl
  | cons a l ih =>
    rw [List.map_cons, wrap32_eq a (le_trans (h a (List.mem_cons_self a l)) hB),
      ih (fun x hx => h x (List.mem_cons_of_mem a hx))]

theorem paddW_wrap32_eq (A B : Int) :
    ∀ x y : List Int, BoundedBy A x → BoundedBy B y → A + B ≤ 2 ^ 31 - 1 →
      paddW wrap32 x y = padd x y ∧ BoundedBy (A + B) (padd x y) := by
  intro x
  induction x with
  | nil => intro y _ _ _; exact ⟨rfl, fun z hz => by simp [padd] at hz⟩
  | cons a x ih =>
    intro y hx hy hAB
    cases y with
    | nil => exact ⟨rfl, fun z hz => by simp [padd] at hz⟩
    | cons b y =>
      have ha := hx a (List.mem_cons_self a x)
      have hb := hy b (List.mem_cons_self b y)
      have hab : |a + b| ≤ A + B := le_trans (abs_add a b) (add_le_add ha hb)
      obtain ⟨h1, h2⟩ := ih y (fun z hz => hx z (List.mem_cons_of_mem a hz))
        (fun z hz => hy z (List.mem_cons_of_mem b hz)) hAB
      constructor
      · simp only [paddW, padd, List.zipWith_cons_cons] at h1 ⊢
        rw [wrap32_eq (a + b) (le_trans hab hAB), h1]
      · intro z hz
        simp only [padd, List.zipWith_cons_cons, List.mem_cons] at hz
        rcases hz with rfl | hz
        · exact hab
        · exact h2 z hz

theorem abs_mul_le_sq (q x y : Int) (hx : |x| ≤ q) (hy : |y| ≤ q) : |x * y| ≤ q * q := by
  rw [abs_mul]
  exact mul_le_mul hx hy (abs_nonneg y) (le_trans (abs_nonneg x) hx)

theorem basemul_bounded (q : Int) :
    ∀ a b bp : List Int, BoundedBy q a → BoundedBy q b → BoundedBy q bp →
      BoundedBy (2 * q * q) (basemul a b bp) := by
  intro a b bp
  induction a, b, bp using basemul.induct with
  | case1 a0 a1 as b0 b1 bs p ps ih =>
    intro ha hb hp
    have ha0 := ha a0 (by simp)
    have ha1 := ha a1 (by simp)
    have hb0 := hb b0 (by simp)
    have hb1 := hb b1 (by simp)
    have hp0 := hp p (by simp)
    have hrest := ih (fun z hz => ha z (by simp [hz])) (fun z hz => hb z (by simp [hz]))
      (fun z hz => hp z (by simp [hz]))
    intro z hz
    simp only [basemul, List.mem_cons] at hz
    rcases hz with rfl | rfl | hz
    · have := abs_add (a0 * b0) (a1 * p)
      have h1 := abs_mul_le_sq q a0 b0 ha0 hb0
      have h2 := abs_mul_le_sq q a1 p ha1 hp0
      linarith
    · have := abs_add (a0 * b1) (a1 * b0)
      have h1 := abs_mul_le_sq q a0 b1 ha0 hb1
      have h2 := abs_mul_le_sq q a1 b0 ha1 hb0
      linarith
    · exact hrest z hz
  | case2 a b bp hne =>
    intro _ _ _ z hz
    rw [basemul] at hz
    · simp at hz
    · exact hne

theorem mulcache_bounded (S : SpecParams) (hq : 0 < S.q) :
    ∀ z b : List Int, BoundedBy S.q (S.mulcache z b) := by
  intro z b
  induction z, b using SpecParams.mulcache.induct S with
  | case1 z zs b0 b1 bs ih =>
    intro x hx
    simp only [SpecParams.mulcache, List.mem_cons] at hx
    rcases hx with rfl | hx
    · have h1 := Int.emod_nonneg (b1 * z) (ne_of_gt hq)
      have h2 := Int.emod_lt_of_pos (b1 * z) hq
      rw [SpecParams.red, abs_le]
      constructor <;> linarith
    · exact ih x hx
  | case2 z b hne =>
    intro x hx
    rw [SpecParams.mulcache] at hx
    · simp at hx
    · exact hne

theorem spec_cache_run3 (w : Int → Int) (S : SpecParams)
    (hlen : ∀ st, S.blockbytes ≤ (S.squeeze_block st).1.length) (m : Mem) (i : Nat) (t : Int) :
    (cache_first (specExtWith w S) i t m).r_tmp =
      (rowProd (specExtWith w S) S.gen S.mul m i t 0).map w ∧
    (cache_loop (specExtWith w S) 3 i t (cache_first (specExtWith w S) i t m)).2.r_tmp =
      paddW w ((rowProd (specExtWith w S) S.gen S.mul m i t 0).map w)
        (rowProd (specExtWith w S) S.gen S.mul m i t 1) ∧
    (matacc_cache32 (specExtWith w S) 3 m i t).r.coeffs =
      (paddW w (paddW w ((rowProd (specExtWith w S) S.gen S.mul m i t 0).map w)
        (rowProd (specExtWith w S) S.gen S.mul m i t 1))
        (rowProd (specExtWith w S) S.gen S.mul m i t 2)).map S.red := by
  have hS := specExtWith_stream w S hlen
  have hgen := specParams_gen_block w S
  have k1 : ∀ rt b c buf st slot, ((specExtWith w S).matacc_asm_cache_16_32 rt b c buf
      (specExtWith w S).zetas st slot).r_tmp = (S.mul (S.gen buf st) b).map w :=
    fun _ _ _ _ _ _ => rfl
  have k2 : ∀ rt b c buf st slot, ((specExtWith w S).matacc_asm_cache_32_32 rt b c buf
      (specExtWith w S).zetas st slot).r_tmp = paddW w rt (S.mul (S.gen buf st) b) :=
    fun _ _ _ _ _ _ => rfl
  have k3 : ∀ r b c buf st slot rt, ((specExtWith w S).matacc_asm_cache_32_16 r b c buf
      (specExtWith w S).zetas st slot rt).r = (paddW w rt (S.mul (S.gen buf st) b)).map S.red :=
    fun _ _ _ _ _ _ _ => rfl
  have h1 : (cache_first (specExtWith w S) i t m).r_tmp =
      (rowProd (specExtWith w S) S.gen S.mul m i t 0).map w := by
    simp only [cache_first, call_cache_16_32, k1, gen_draw _ hS S.gen hgen, draw_b, rowProd]
  have h2 : (cache_loop (specExtWith w S) 3 i t (cache_first (specExtWith w S) i t m)).2.r_tmp =
      paddW w ((rowProd (specExtWith w S) S.gen S.mul m i t 0).map w)
        (rowProd (specExtWith w S) S.gen S.mul m i t 1) := by
    simp only [cache_loop, for_loop, Nat.reduceSub, Nat.reduceLT, Nat.lt_irrefl, if_true,
      if_false, Nat.reduceAdd, Nat.one_lt_ofNat]
    simp only [call_cache_32_32, k2, gen_draw _ hS S.gen hgen, draw_b, draw_r_tmp, h1]
    simp only [rowProd, cache_first, call_cache_16_32, draw_b, draw_seed]
  refine ⟨h1, h2, ?_⟩
  have hj : (cache_loop (specExtWith w S) 3 i t (cache_first (specExtWith w S) i t m)).1 = 2 := by
    simp only [cache_loop, for_loop, Nat.reduceSub, Nat.reduceLT, Nat.lt_irrefl, if_true,
      if_false, Nat.reduceAdd, Nat.one_lt_ofNat]
  have hb : (cache_loop (specExtWith w S) 3 i t (cache_first (specExtWith w S) i t m)).2.b =
      m.b := by
    simp only [cache_loop, for_loop, Nat.reduceSub, Nat.reduceLT, Nat.lt_irrefl, if_true,
      if_false, Nat.reduceAdd, Nat.one_lt_ofNat]
    simp only [call_cache_32_32, cache_first, call_cache_16_32, draw_b]
  have hs : (cache_loop (specExtWith w S) 3 i t (cache_first (specExtWith w S) i t m)).2.seed =
      m.seed := by
    simp only [cache_loop, for_loop, Nat.reduceSub, Nat.reduceLT, Nat.lt_irrefl, if_true,
      if_false, Nat.reduceAdd, Nat.one_lt_ofNat]
    simp only [call_cache_32_32, cache_first, call_cache_16_32, draw_seed]
  simp only [matacc_cache32, cache_last, hj, call_cache_32_16, k3,
    gen_draw _ hS S.gen hgen, draw_b, draw_r_tmp, h2, hb, hs, rowProd]

theorem spec_opt_run3 (w : Int → Int) (S : SpecParams)
    (hlen : ∀ st, S.blockbytes ≤ (S.squeeze_block st).1.length) (m : Mem) (i : Nat) (t : Int) :
    (opt_first (specExtWith w S) i t m).r_tmp =
      (S.rowProdOpt (specExtWith w S) m i t 0).map w ∧
    (opt_loop (specExtWith w S) 3 i t (opt_first (specExtWith w S) i t m)).2.r_tmp =
      paddW w ((S.rowProdOpt (specExtWith w S) m i t 0).map w)
        (S.rowProdOpt (specExtWith w S) m i t 1) ∧
    (matacc_opt32 (specExtWith w S) 3 m i t).r.coeffs =
      (paddW w (paddW w ((S.rowProdOpt (specExtWith w S) m i t 0).map w)
        (S.rowProdOpt (specExtWith w S) m i t 1))
        (S.rowProdOpt (specExtWith w S) m i t 2)).map S.red := by
  have hS := specExtWith_stream w S hlen
  have hgen := specParams_gen_block w S
  have k1 : ∀ rt b c buf st bp, ((specExtWith w S).matacc_asm_opt_16_32 rt b c buf
      st bp).r_tmp = (basemul (S.gen buf st) b bp).map w :=
    fun _ _ _ _ _ _ => rfl
  have k2 : ∀ rt b c buf st bp, ((specExtWith w S).matacc_asm_opt_32_32 rt b c buf
      st bp).r_tmp = paddW w rt (basemul (S.gen buf st) b bp) :=
    fun _ _ _ _ _ _ => rfl
  have k3 : ∀ r b c buf st bp rt, ((specExtWith w S).matacc_asm_opt_32_16 r b c buf
      st bp rt).r = (paddW w rt (basemul (S.gen buf st) b bp)).map S.red :=
    fun _ _ _ _ _ _ _ => rfl
  have e1 : (opt_first (specExtWith w S) i t m).r_tmp =
      (S.rowProdOpt (specExtWith w S) m i t 0).map w := by
    simp only [opt_first, call_opt_16_32, draw_b, draw_b_prime, k1,
      gen_draw _ hS S.gen hgen, SpecParams.rowProdOpt]
  have hb1 : (opt_first (specExtWith w S) i t m).b = m.b := by
    simp only [opt_first, call_opt_16_32, draw_b]
  have hp1 : (opt_first (specExtWith w S) i t m).b_prime = m.b_prime := by
    simp only [opt_first, call_opt_16_32, draw_b_prime]
  have hs1 : (opt_first (specExtWith w S) i t m).seed = m.seed := by
    simp only [opt_first, call_opt_16_32, draw_seed]
  have e2 : (opt_loop (specExtWith w S) 3 i t (opt_first (specExtWith w S) i t m)).2.r_tmp =
      paddW w ((S.rowProdOpt (specExtWith w S) m i t 0).map w)
        (S.rowProdOpt (specExtWith w S) m i t 1) := by
    simp only [opt_loop, for_loop, Nat.reduceSub, Nat.reduceLT, Nat.lt_irrefl, if_true,
      if_false, Nat.reduceAdd, Nat.one_lt_ofNat]
    simp only [call_opt_32_32, draw_b, draw_b_prime, draw_r_tmp, hb1, hp1, k2,
      gen_draw _ hS S.gen hgen, e1, hs1, SpecParams.rowProdOpt]
  refine ⟨e1, e2, ?_⟩
  have hj : (opt_loop (specExtWith w S) 3 i t (opt_first (specExtWith w S) i t m)).1 = 2 := by
    simp only [opt_loop, for_loop, Nat.reduceSub, Nat.reduceLT, Nat.lt_irrefl, if_true,
      if_false, Nat.reduceAdd, Nat.one_lt_ofNat]
  have hb : (opt_loop (specExtWith w S) 3 i t (opt_first (specExtWith w S) i t m)).2.b =
      m.b := by
    simp only [opt_loop, for_loop, Nat.reduceSub, Nat.reduceLT, Nat.lt_irrefl, if_true,
      if_false, Nat.reduceAdd, Nat.one_lt_ofNat]
    simp only [call_opt_32_32, opt_first, call_opt_16_32, draw_b]
  have hp : (opt_loop (specExtWith w S) 3 i t (opt_first (specExtWith w S) i t m)).2.b_prime =
      m.b_prime := by
    simp only [opt_loop, for_loop, Nat.reduceSub, Nat.reduceLT, Nat.lt_irrefl, if_true,
      if_false, Nat.reduceAdd, Nat.one_lt_ofNat]
    simp only [call_opt_32_32, opt_first, call_opt_16_32, draw_b_prime]
  have hs : (opt_loop (specExtWith w S) 3 i t (opt_first (specExtWith w S) i t m)).2.seed =
      m.seed := by
    simp only [opt_loop, for_loop, Nat.reduceSub, Nat.reduceLT, Nat.lt_irrefl, if_true,
      if_false, Nat.reduceAdd, Nat.one_lt_ofNat]
    simp only [call_opt_32_32, opt_first, call_opt_16_32, draw_seed]
  simp only [matacc_opt32, opt_last, hj, call_opt_32_16, draw_b, draw_b_prime, draw_r_tmp,
    hb, hp, k3, gen_draw _ hS S.gen hgen, e2, hs, SpecParams.rowProdOpt]

/-- Three products bounded by `B` with `3 * B` in the `int32_t` range: accumulating them
in `int32_t` gives the exact sums, and every accumulator value is in range. -/
theorem three_products_exact (B : Int) (P0 P1 P2 : List Int) (h0 : BoundedBy B P0)
    (h1 : BoundedBy B P1) (h2 : BoundedBy B P2) (hB : 3 * B ≤ 2 ^ 31 - 1) :
    P0.map wrap32 = P0 ∧
    paddW wrap32 (P0.map wrap32) P1 = padd P0 P1 ∧
    paddW wrap32 (paddW wrap32 (P0.map wrap32) P1) P2 = padd (padd P0 P1) P2 ∧
    InInt32 P0 ∧ InInt32 (padd P0 P1) ∧ InInt32 (padd (padd P0 P1) P2) := by
  have e0 := map_wrap32_eq B P0 h0 (by linarith)
  obtain ⟨e1, b1⟩ := paddW_wrap32_eq B B P0 P1 h0 h1 (by linarith)
  obtain ⟨e2, b2⟩ := paddW_wrap32_eq (B + B) B (padd P0 P1) P2 b1 h2 (by linarith)
  refine ⟨e0, by rw [e0, e1], by rw [e0, e1, e2], boundedBy_inInt32 B P0 h0 (by linarith),
    boundedBy_inInt32 (B + B) _ b1 (by linarith),
    boundedBy_inInt32 (B + B + B) _ b2 (by linarith)⟩

/-- C5: for rank `KYBER_K = 3` and `q = 3329`, with the kernels of the model (`int32_t`
accumulator, every product coefficient a sum of two coefficient products): if the sampled
polynomials and the vector elements (and, for `matacc_opt32`, the cache slots) have
coefficients of absolute value at most `q`, then the accumulator after the first stage is
the exact product of dimension 0, the accumulator after the middle stage is the exact sum
of the products of dimensions 0 and 1, the `int32_t` sum the last stage forms before
reducing is the exact sum of the three products (the output is its reduction), and all
these values lie in `[-2^31, 2^31 - 1]`. -/
theorem no_accumulator_overflow (S : SpecParams) (hq : S.q = 3329)
    (hlen : ∀ st, S.blockbytes ≤ (S.squeeze_block st).1.length)
    (hsample : ∀ blk st, BoundedBy S.q (S.sample blk st)) (m : Mem) (i : Nat)
    (transposed : Int) (hb : ∀ j, j < KYBER_K → BoundedBy S.q (m.b.slot j)) :
    ((cache_first (specExt S) i transposed m).r_tmp =
        rowProd (specExt S) S.gen S.mul m i transposed 0 ∧
      (cache_loop (specExt S) KYBER_K i transposed
          (cache_first (specExt S) i transposed m)).2.r_tmp =
        padd (rowProd (specExt S) S.gen S.mul m i transposed 0)
          (rowProd (specExt S) S.gen S.mul m i transposed 1) ∧
      paddW wrap32 (cache_loop (specExt S) KYBER_K i transposed
          (cache_first (specExt S) i transposed m)).2.r_tmp
          (rowProd (specExt S) S.gen S.mul m i transposed 2) =
        padd (padd (rowProd (specExt S) S.gen S.mul m i transposed 0)
          (rowProd (specExt S) S.gen S.mul m i transposed 1))
          (rowProd (specExt S) S.gen S.mul m i transposed 2) ∧
      (matacc_cache32 (specExt S) KYBER_K m i transposed).r.coeffs =
        (padd (padd (rowProd (specExt S) S.gen S.mul m i transposed 0)
          (rowProd (specExt S) S.gen S.mul m i transposed 1))
          (rowProd (specExt S) S.gen S.mul m i transposed 2)).map S.red ∧
      InInt32 (rowProd (specExt S) S.gen S.mul m i transposed 0) ∧
      InInt32 (padd (rowProd (specExt S) S.gen S.mul m i transposed 0)
        (rowProd (specExt S) S.gen S.mul m i transposed 1)) ∧
      InInt32 (padd (padd (rowProd (specExt S) S.gen S.mul m i transposed 0)
        (rowProd (specExt S) S.gen S.mul m i transposed 1))
        (rowProd (specExt S) S.gen S.mul m i transposed 2))) ∧
    ((∀ j, j < KYBER_K → BoundedBy S.q (m.b_prime.slot j)) →
      (opt_first (specExt S) i transposed m).r_tmp =
        S.rowProdOpt (specExt S) m i transposed 0 ∧
      (opt_loop (specExt S) KYBER_K i transposed
          (opt_first (specExt S) i transposed m)).2.r_tmp =
        padd (S.rowProdOpt (specExt S) m i transposed 0)
          (S.rowProdOpt (specExt S) m i transposed 1) ∧
      paddW wrap32 (opt_loop (specExt S) KYBER_K i transposed
          (opt_first (specExt S) i transposed m)).2.r_tmp
          (S.rowProdOpt (specExt S) m i transposed 2) =
        padd (padd (S.rowProdOpt (specExt S) m i transposed 0)
          (S.rowProdOpt (specExt S) m i transposed 1))
          (S.rowProdOpt (specExt S) m i transposed 2) ∧
      (matacc_opt32 (specExt S) KYBER_K m i transposed).r.coeffs =
        (padd (padd (S.rowProdOpt (specExt S) m i transposed 0)
          (S.rowProdOpt (specExt S) m i transposed 1))
          (S.rowProdOpt (specExt S) m i transposed 2)).map S.red ∧
      InInt32 (S.rowProdOpt (specExt S) m i transposed 0) ∧
      InInt32 (padd (S.rowProdOpt (specExt S) m i transposed 0)
        (S.rowProdOpt (specExt S) m i transposed 1)) ∧
      InInt32 (padd (padd (S.rowProdOpt (specExt S) m i transposed 0)
        (S.rowProdOpt (specExt S) m i transposed 1))
        (S.rowProdOpt (specExt S) m i transposed 2))) := by
  have hq0 : 0 < S.q := by rw [hq]; norm_num
  have hB : 3 * (2 * S.q * S.q) ≤ 2 ^ 31 - 1 := by rw [hq]; norm_num
  have hP : ∀ j, j < KYBER_K →
      BoundedBy (2 * S.q * S.q) (rowProd (specExt S) S.gen S.mul m i transposed j) :=
    fun j hj => basemul_bounded S.q _ _ _ (hsample _ _) (hb j hj) (mulcache_bounded S hq0 _ _)
  constructor
  · obtain ⟨r1, r2, r3⟩ := spec_cache_run3 wrap32 S hlen m i transposed
    obtain ⟨e0, e1, e2, i0, i1, i2⟩ := three_products_exact (2 * S.q * S.q) _ _ _
      (hP 0 (by decide)) (hP 1 (by decide)) (hP 2 (by decide)) hB
    simp only [specExt, KYBER_K] at *
    refine ⟨by rw [r1, e0], by rw [r2, e1], by rw [r2, e2], by rw [r3, e2], i0, i1, i2⟩
  · intro hbp
    have hQ : ∀ j, j < KYBER_K →
        BoundedBy (2 * S.q * S.q) (S.rowProdOpt (specExt S) m i transposed j) :=
      fun j hj => basemul_bounded S.q _ _ _ (hsample _ _) (hb j hj) (hbp j hj)
    obtain ⟨r1, r2, r3⟩ := spec_opt_run3 wrap32 S hlen m i transposed
    obtain ⟨e0, e1, e2, i0, i1, i2⟩ := three_products_exact (2 * S.q * S.q) _ _ _
      (hQ 0 (by decide)) (hQ 1 (by decide)) (hQ 2 (by decide)) hB
    simp only [specExt, KYBER_K] at *
    refine ⟨by rw [r1, e0], by rw [r2, e1], by rw [r2, e2], by rw [r3, e2], i0, i1, i2⟩

theorem toy_sample_bounded (blk : Bytes) (st : XofState) :
    BoundedBy toyParams.q (toyParams.sample blk st) := by
  intro x hx
  simp only [toyParams] at hx ⊢
  have hx' := List.mem_of_mem_take hx
  rw [List.mem_append] at hx'
  rcases hx' with h | h
  · rw [List.mem_filter, List.mem_map] at h
    obtain ⟨⟨n, _, rfl⟩, h2⟩ := h
    have h3 : Int.ofNat n < 3329 := by simpa using h2
    rw [abs_le]
    constructor
    · have : (0 : Int) ≤ Int.ofNat n := Int.ofNat_nonneg n
      linarith
    · linarith
  · rw [List.mem_replicate] at h
    rw [h.2]
    norm_num

theorem toyOptMem_b_bounded (j : Nat) (hj : j < KYBER_K) :
    BoundedBy toyParams.q (toyOptMem.b.slot j) := by
  have h : j = 0 ∨ j = 1 ∨ j = 2 := by
    simp only [KYBER_K] at hj
    omega
  rcases h with rfl | rfl | rfl <;>
    simp [BoundedBy, toyOptMem, toyMem2, toyParams, polyvec.slot, abs_le]

theorem toyOptMem_cache_bounded (j : Nat) (hj : j < KYBER_K) :
    BoundedBy toyParams.q (toyOptMem.b_prime.slot j) := by
  rw [toyOptMem_slots j hj]
  exact mulcache_bounded toyParams (by decide) _ _

/-- C5 on the toy instance: in the cache run and in the opt run, the `int32_t` sum formed
before the reduction is the exact sum of the three products and lies in the `int32_t`
range. -/
theorem no_accumulator_overflow_witness :
    toyParams.q = 3329 ∧
    (∀ st, toyParams.blockbytes ≤ (toyParams.squeeze_block st).1.length) ∧
    (∀ blk st, BoundedBy toyParams.q (toyParams.sample blk st)) ∧
    (∀ j, j < KYBER_K → BoundedBy toyParams.q (toyOptMem.b.slot j)) ∧
    (∀ j, j < KYBER_K → BoundedBy toyParams.q (toyOptMem.b_prime.slot j)) ∧
    paddW wrap32 (cache_loop (specExt toyParams) KYBER_K 1 0
        (cache_first (specExt toyParams) 1 0 toyOptMem)).2.r_tmp
        (rowProd (specExt toyParams) toyParams.gen toyParams.mul toyOptMem 1 0 2) =
      padd (padd (rowProd (specExt toyParams) toyParams.gen toyParams.mul toyOptMem 1 0 0)
        (rowProd (specExt toyParams) toyParams.gen toyParams.mul toyOptMem 1 0 1))
        (rowProd (specExt toyParams) toyParams.gen toyParams.mul toyOptMem 1 0 2) ∧
    InInt32 (padd (padd (rowProd (specExt toyParams) toyParams.gen toyParams.mul toyOptMem 1 0 0)
        (rowProd (specExt toyParams) toyParams.gen toyParams.mul toyOptMem 1 0 1))
        (rowProd (specExt toyParams) toyParams.gen toyParams.mul toyOptMem 1 0 2)) ∧
    InInt32 (padd (padd (toyParams.rowProdOpt (specExt toyParams) toyOptMem 1 0 0)
        (toyParams.rowProdOpt (specExt toyParams) toyOptMem 1 0 1))
        (toyParams.rowProdOpt (specExt toyParams) toyOptMem 1 0 2)) :=
  ⟨rfl, toyParams_block, toy_sample_bounded, toyOptMem_b_bounded, toyOptMem_cache_bounded,
    (no_accumulator_overflow toyParams rfl toyParams_block toy_sample_bounded toyOptMem 1 0
      toyOptMem_b_bounded).1.2.2.1,
    (no_accumulator_overflow toyParams rfl toyParams_block toy_sample_bounded toyOptMem 1 0
      toyOptMem_b_bounded).1.2.2.2.2.2.2,
    ((no_accumulator_overflow toyParams rfl toyParams_block toy_sample_bounded toyOptMem 1 0
      toyOptMem_b_bounded).2 toyOptMem_cache_bounded).2.2.2.2.2.2⟩

/-! ## Values that fit the accumulator -/

theorem wrap32_of_fits (z : Int) (h1 : -(2 : Int) ^ 31 ≤ z) (h2 : z ≤ 2 ^ 31 - 1) :
    wrap32 z = z := by
  unfold wrap32
  norm_num at h1 h2 ⊢
  omega

theorem map_wrap32_of_inInt32 (l : List Int) (h : InInt32 l) : l.map wrap32 = l := by
  induction l with
  | nil => rfl
  | cons a l ih =>
    have ha := h a (List.mem_cons_self a l)
    rw [List.map_cons, wrap32_of_fits a ha.1 ha.2,
      ih (fun x hx => h x (List.mem_cons_of_mem a hx))]

theorem paddW_wrap32_of_inInt32 :
    ∀ x y : List Int, InInt32 (padd x y) → paddW wrap32 x y = padd x y := by
  intro x
  induction x with
  | nil => intro y _; rfl
  | cons a x ih =>
    intro y h
    cases y with
    | nil => rfl
    | cons b y =>
      have hab := h (a + b) (by simp [padd])
      have hrest : InInt32 (padd x y) := fun z hz => h z (by
        simp only [padd, List.zipWith_cons_cons, List.mem_cons]
        exact Or.inr hz)
      have e := ih y hrest
      simp only [paddW, padd, List.zipWith_cons_cons] at e ⊢
      rw [wrap32_of_fits (a + b) hab.1 hab.2, e]

theorem inInt32_zero (N : Nat) : InInt32 (List.replicate N 0) := by
  intro x hx
  rw [List.mem_replicate] at hx
  rw [hx.2]
  norm_num

/-- The model with the `int32_t` accumulator meets the accumulator contract of the cache
kernels. -/
theorem specExt_cache_accumulates (S : SpecParams) :
    CacheAccumulates (specExt S) S.gen S.mul S.red := by
  refine ⟨?_, ?_, ?_⟩
  · intro rt b c buf st slot h
    exact map_wrap32_of_inInt32 _ h
  · intro rt b c buf st slot _ h
    exact paddW_wrap32_of_inInt32 _ _ h
  · intro r b c buf st slot rt _ h
    exact congrArg (List.map S.red) (paddW_wrap32_of_inInt32 _ _ h)

/-- The model with the `int32_t` accumulator meets the accumulator contract of the opt
kernels. -/
theorem specExt_opt_accumulates (S : SpecParams) :
    OptAccumulates (specExt S) S.gen S.mul S.mulcache S.red := by
  refine ⟨?_, ?_, ?_⟩
  · intro rt b c buf st h
    exact map_wrap32_of_inInt32 _ h
  · intro rt b c buf st _ h
    exact paddW_wrap32_of_inInt32 _ _ h
  · intro r b c buf st rt _ h
    exact congrArg (List.map S.red) (paddW_wrap32_of_inInt32 _ _ h)

/-! ## The run for rank 3, stage by stage -/

theorem cache_loop3 (E : Ext) (i : Nat) (t : Int) (x : Mem) :
    cache_loop E 3 i t x = (2, call_cache_32_32 E 1 (draw E i t 1 x)) := by
  simp only [cache_loop, for_loop, Nat.reduceSub, Nat.reduceLT, Nat.lt_irrefl, if_true,
    if_false, Nat.reduceAdd, Nat.one_lt_ofNat]

theorem opt_loop3 (E : Ext) (i : Nat) (t : Int) (x : Mem) :
    opt_loop E 3 i t x = (2, call_opt_32_32 E 1 (draw E i t 1 x)) := by
  simp only [opt_loop, for_loop, Nat.reduceSub, Nat.reduceLT, Nat.lt_irrefl, if_true,
    if_false, Nat.reduceAdd, Nat.one_lt_ofNat]

theorem cache3_unfold (E : Ext) (m : Mem) (i : Nat) (t : Int) :
    matacc_cache32 E 3 m i t =
      call_cache_32_16 E 2 (draw E i t 2 (call_cache_32_32 E 1 (draw E i t 1
        (cache_first E i t m)))) := by
  simp only [matacc_cache32, cache_last, cache_loop3]

theorem opt3_unfold (E : Ext) (m : Mem) (i : Nat) (t : Int) :
    matacc_opt32 E 3 m i t =
      call_opt_32_16 E 2 (draw E i t 2 (call_opt_32_32 E 1 (draw E i t 1
        (opt_first E i t m)))) := by
  simp only [matacc_opt32, opt_last, opt_loop3]

theorem cache_16_32_acc (E : Ext) (hS : StreamContract E) (gen : Bytes → XofState → List Int)
    (mul : List Int → List Int → List Int) (red : Int → Int)
    (hgen : ∀ buf buf' st, SameBlock E.XOF_BLOCKBYTES buf buf' → gen buf st = gen buf' st)
    (hC : CacheAccumulates E gen mul red) (i : Nat) (t : Int) (j : Nat) (x : Mem)
    (h : InInt32 (mul (rowPoly E gen x.seed i t j) (x.b.slot j))) :
    (call_cache_16_32 E j (draw E i t j x)).r_tmp =
      mul (rowPoly E gen x.seed i t j) (x.b.slot j) := by
  have g := gen_draw E hS gen hgen i t j x
  simp only [call_cache_16_32, draw_b]
  rw [hC.first, g]
  rw [g]
  exact h

theorem cache_32_32_acc (E : Ext) (hS : StreamContract E) (gen : Bytes → XofState → List Int)
    (mul : List Int → List Int → List Int) (red : Int → Int)
    (hgen : ∀ buf buf' st, SameBlock E.XOF_BLOCKBYTES buf buf' → gen buf st = gen buf' st)
    (hC : CacheAccumulates E gen mul red) (i : Nat) (t : Int) (j : Nat) (x : Mem)
    (hrt : InInt32 x.r_tmp)
    (h : InInt32 (padd x.r_tmp (mul (rowPoly E gen x.seed i t j) (x.b.slot j)))) :
    (call_cache_32_32 E j (draw E i t j x)).r_tmp =
      padd x.r_tmp (mul (rowPoly E gen x.seed i t j) (x.b.slot j)) := by
  have g := gen_draw E hS gen hgen i t j x
  simp only [call_cache_32_32, draw_b, draw_r_tmp]
  rw [hC.middle, g]
  · exact hrt
  · rw [g]
    exact h

theorem cache_32_16_out (E : Ext) (hS : StreamContract E) (gen : Bytes → XofState → List Int)
    (mul : List Int → List Int → List Int) (red : Int → Int)
    (hgen : ∀ buf buf' st, SameBlock E.XOF_BLOCKBYTES buf buf' → gen buf st = gen buf' st)
    (hC : CacheAccumulates E gen mul red) (i : Nat) (t : Int) (j : Nat) (x : Mem)
    (hrt : InInt32 x.r_tmp)
    (h : InInt32 (padd x.r_tmp (mul (rowPoly E gen x.seed i t j) (x.b.slot j)))) :
    (call_cache_32_16 E j (draw E i t j x)).r.coeffs =
      (padd x.r_tmp (mul (rowPoly E gen x.seed i t j) (x.b.slot j))).map red := by
  have g := gen_draw E hS gen hgen i t j x
  simp only [call_cache_32_16, draw_b, draw_r_tmp]
  rw [hC.last, g]
  · exact hrt
  · rw [g]
    exact h

theorem opt_16_32_acc (E : Ext) (hS : StreamContract E) (gen : Bytes → XofState → List Int)
    (mul : List Int → List Int → List Int) (tr : List Int → List Int → List Int)
    (red : Int → Int)
    (hgen : ∀ buf buf' st, SameBlock E.XOF_BLOCKBYTES buf buf' → gen buf st = gen buf' st)
    (hO : OptAccumulates E gen mul tr red) (i : Nat) (t : Int) (j : Nat) (x : Mem)
    (hslot : x.b_prime.slot j = tr E.zetas (x.b.slot j))
    (h : InInt32 (mul (rowPoly E gen x.seed i t j) (x.b.slot j))) :
    (call_opt_16_32 E j (draw E i t j x)).r_tmp =
      mul (rowPoly E gen x.seed i t j) (x.b.slot j) := by
  have g := gen_draw E hS gen hgen i t j x
  simp only [call_opt_16_32, draw_b, draw_b_prime, hslot]
  rw [hO.first, g]
  rw [g]
  exact h

theorem opt_32_32_acc (E : Ext) (hS : StreamContract E) (gen : Bytes → XofState → List Int)
    (mul : List Int → List Int → List Int) (tr : List Int → List Int → List Int)
    (red : Int → Int)
    (hgen : ∀ buf buf' st, SameBlock E.XOF_BLOCKBYTES buf buf' → gen buf st = gen buf' st)
    (hO : OptAccumulates E gen mul tr red) (i : Nat) (t : Int) (j : Nat) (x : Mem)
    (hslot : x.b_prime.slot j = tr E.zetas (x.b.slot j)) (hrt : InInt32 x.r_tmp)
    (h : InInt32 (padd x.r_tmp (mul (rowPoly E gen x.seed i t j) (x.b.slot j)))) :
    (call_opt_32_32 E j (draw E i t j x)).r_tmp =
      padd x.r_tmp (mul (rowPoly E gen x.seed i t j) (x.b.slot j)) := by
  have g := gen_draw E hS gen hgen i t j x
  simp only [call_opt_32_32, draw_b, draw_b_prime, draw_r_tmp, hslot]
  rw [hO.middle, g]
  · exact hrt
  · rw [g]
    exact h

theorem opt_32_16_out (E : Ext) (hS : StreamContract E) (gen : Bytes → XofState → List Int)
    (mul : List Int → List Int → List Int) (tr : List Int → List Int → List Int)
    (red : Int → Int)
    (hgen : ∀ buf buf' st, SameBlock E.XOF_BLOCKBYTES buf buf' → gen buf st = gen buf' st)
    (hO : OptAccumulates E gen mul tr red) (i : Nat) (t : Int) (j : Nat) (x : Mem)
    (hslot : x.b_prime.slot j = tr E.zetas (x.b.slot j)) (hrt : InInt32 x.r_tmp)
    (h : InInt32 (padd x.r_tmp (mul (rowPoly E gen x.seed i t j) (x.b.slot j)))) :
    (call_opt_32_16 E j (draw E i t j x)).r.coeffs =
      (padd x.r_tmp (mul (rowPoly E gen x.seed i t j) (x.b.slot j))).map red := by
  have g := gen_draw E hS gen hgen i t j x
  simp only [call_opt_32_16, draw_b, draw_b_prime, draw_r_tmp, hslot]
  rw [hO.last, g]
  · exact hrt
  · rw [g]
    exact h

/-- The cache run for rank 3 when the exact partial sums fit the accumulator. -/
theorem cache_run3 (E : Ext) (hS : StreamContract E) (gen : Bytes → XofState → List Int)
    (mul : List Int → List Int → List Int) (red : Int → Int)
    (hgen : ∀ buf buf' st, SameBlock E.XOF_BLOCKBYTES buf buf' → gen buf st = gen buf' st)
    (hC : CacheAccumulates E gen mul red) (m : Mem) (i : Nat) (t : Int)
    (hr0 : InInt32 (rowProd E gen mul m i t 0))
    (hr1 : InInt32 (padd (rowProd E gen mul m i t 0) (rowProd E gen mul m i t 1)))
    (hr2 : InInt32 (padd (padd (rowProd E gen mul m i t 0) (rowProd E gen mul m i t 1))
      (rowProd E gen mul m i t 2))) :
    (cache_first E i t m).r_tmp = rowProd E gen mul m i t 0 ∧
    (cache_loop E 3 i t (cache_first E i t m)).2.r_tmp =
      padd (rowProd E gen mul m i t 0) (rowProd E gen mul m i t 1) ∧
    (matacc_cache32 E 3 m i t).r.coeffs =
      (padd (padd (rowProd E gen mul m i t 0) (rowProd E gen mul m i t 1))
        (rowProd E gen mul m i t 2)).map red := by
  have h1 : (cache_first E i t m).r_tmp = rowProd E gen mul m i t 0 :=
    cache_16_32_acc E hS gen mul red hgen hC i t 0 m hr0
  have b1 : (cache_first E i t m).b = m.b := by
    simp only [cache_first, call_cache_16_32, draw_b]
  have s1 : (cache_first E i t m).seed = m.seed := by
    simp only [cache_first, call_cache_16_32, draw_seed]
  have h2 : (call_cache_32_32 E 1 (draw E i t 1 (cache_first E i t m))).r_tmp =
      padd (rowProd E gen mul m i t 0) (rowProd E gen mul m i t 1) := by
    rw [cache_32_32_acc E hS gen mul red hgen hC i t 1 (cache_first E i t m)
      (by rw [h1]; exact hr0) (by rw [h1, b1, s1]; exact hr1), h1, b1, s1]
    rfl
  have b2 : (call_cache_32_32 E 1 (draw E i t 1 (cache_first E i t m))).b = m.b := by
    simp only [call_cache_32_32, draw_b, b1]
  have s2 : (call_cache_32_32 E 1 (draw E i t 1 (cache_first E i t m))).seed = m.seed := by
    simp only [call_cache_32_32, draw_seed, s1]
  refine ⟨h1, by rw [cache_loop3]; exact h2, ?_⟩
  rw [cache3_unfold]
  rw [cache_32_16_out E hS gen mul red hgen hC i t 2
    (call_cache_32_32 E 1 (draw E i t 1 (cache_first E i t m)))
    (by rw [h2]; exact hr1) (by rw [h2, b2, s2]; exact hr2), h2, b2, s2]
  rfl

/-- The opt run for rank 3 when the exact partial sums fit the accumulator and the cache
slots hold the transformed vector elements. -/
theorem opt_run3 (E : Ext) (hS : StreamContract E) (gen : Bytes → XofState → List Int)
    (mul : List Int → List Int → List Int) (tr : List Int → List Int → List Int)
    (red : Int → Int)
    (hgen : ∀ buf buf' st, SameBlock E.XOF_BLOCKBYTES buf buf' → gen buf st = gen buf' st)
    (hO : OptAccumulates E gen mul tr red) (m : Mem) (i : Nat) (t : Int)
    (k0 : m.b_prime.slot 0 = tr E.zetas (m.b.slot 0))
    (k1 : m.b_prime.slot 1 = tr E.zetas (m.b.slot 1))
    (k2 : m.b_prime.slot 2 = tr E.zetas (m.b.slot 2))
    (hr0 : InInt32 (rowProd E gen mul m i t 0))
    (hr1 : InInt32 (padd (rowProd E gen mul m i t 0) (rowProd E gen mul m i t 1)))
    (hr2 : InInt32 (padd (padd (rowProd E gen mul m i t 0) (rowProd E gen mul m i t 1))
      (rowProd E gen mul m i t 2))) :
    (opt_first E i t m).r_tmp = rowProd E gen mul m i t 0 ∧
    (opt_loop E 3 i t (opt_first E i t m)).2.r_tmp =
      padd (rowProd E gen mul m i t 0) (rowProd E gen mul m i t 1) ∧
    (matacc_opt32 E 3 m i t).r.coeffs =
      (padd (padd (rowProd E gen mul m i t 0) (rowProd E gen mul m i t 1))
        (rowProd E gen mul m i t 2)).map red := by
  have h1 : (opt_first E i t m).r_tmp = rowProd E gen mul m i t 0 :=
    opt_16_32_acc E hS gen mul tr red hgen hO i t 0 m k0 hr0
  have b1 : (opt_first E i t m).b = m.b := by
    simp only [opt_first, call_opt_16_32, draw_b]
  have s1 : (opt_first E i t m).seed = m.seed := by
    simp only [opt_first, call_opt_16_32, draw_seed]
  have p1 : (opt_first E i t m).b_prime = m.b_prime := by
    simp only [opt_first, call_opt_16_32, draw_b_prime]
  have h2 : (call_opt_32_32 E 1 (draw E i t 1 (opt_first E i t m))).r_tmp =
      padd (rowProd E gen mul m i t 0) (rowProd E gen mul m i t 1) := by
    rw [opt_32_32_acc E hS gen mul tr red hgen hO i t 1 (opt_first E i t m)
      (by rw [p1, b1]; exact k1)
      (by rw [h1]; exact hr0) (by rw [h1, b1, s1]; exact hr1), h1, b1, s1]
    rfl
  have b2 : (call_opt_32_32 E 1 (draw E i t 1 (opt_first E i t m))).b = m.b := by
    simp only [call_opt_32_32, draw_b, b1]
  have s2 : (call_opt_32_32 E 1 (draw E i t 1 (opt_first E i t m))).seed = m.seed := by
    simp only [call_opt_32_32, draw_seed, s1]
  have p2 : (call_opt_32_32 E 1 (draw E i t 1 (opt_first E i t m))).b_prime = m.b_prime := by
    simp only [call_opt_32_32, draw_b_prime, p1]
  refine ⟨h1, by rw [opt_loop3]; exact h2, ?_⟩
  rw [opt3_unfold]
  rw [opt_32_16_out E hS gen mul tr red hgen hO i t 2
    (call_opt_32_32 E 1 (draw E i t 1 (opt_first E i t m)))
    (by rw [p2, b2]; exact k2)
    (by rw [h2]; exact hr1) (by rw [h2, b2, s2]; exact hr2), h2, b2, s2]
  rfl

/-! ## Width transition (C3) -/

/-- C3: for rank `KYBER_K = 3`, under the stream contract and the kernel contract for the
`int32_t` accumulator (first stage sets the accumulator to the product, a middle stage
adds the product without reducing, the last stage adds the product and reduces every
coefficient by `red`, where `red x ≡ x (mod q)`), for a vector with coefficients of
absolute value at most `Bb` and products whose coefficients are then at most `B`, three
of which fit the accumulator: in `matacc_cache32`, the accumulator after the first stage
is the product of dimension 0, the accumulator before the last stage is the exact sum of
the products of dimensions 0 and 1, and the output polynomial is the coefficient-wise
reduction of the exact sum of the three products, so congruent to it modulo `q`
coefficient by coefficient; the same holds in `matacc_opt32` when the three cache slots
hold the transformed copies of the vector elements. -/
theorem width_transition (E : Ext) (hS : StreamContract E)
    (gen : Bytes → XofState → List Int) (mul : List Int → List Int → List Int)
    (tr : List Int → List Int → List Int) (red : Int → Int) (q Bb B : Int)
    (hgen : ∀ buf buf' st, SameBlock E.XOF_BLOCKBYTES buf buf' → gen buf st = gen buf' st)
    (hC : CacheAccumulates E gen mul red) (hO : OptAccumulates E gen mul tr red)
    (hred : ∀ x, red x ≡ x [ZMOD q])
    (hprod : ∀ buf st b, BoundedBy Bb b → BoundedBy B (mul (gen buf st) b))
    (hfit : 3 * B ≤ 2 ^ 31 - 1) (m : Mem) (i : Nat) (transposed : Int)
    (hb : ∀ j, j < KYBER_K → BoundedBy Bb (m.b.slot j)) :
    ((cache_first E i transposed m).r_tmp = rowProd E gen mul m i transposed 0 ∧
      (cache_loop E KYBER_K i transposed (cache_first E i transposed m)).2.r_tmp =
        padd (rowProd E gen mul m i transposed 0) (rowProd E gen mul m i transposed 1) ∧
      (matacc_cache32 E KYBER_K m i transposed).r.coeffs =
        (padd (padd (rowProd E gen mul m i transposed 0) (rowProd E gen mul m i transposed 1))
          (rowProd E gen mul m i transposed 2)).map red ∧
      CongrMod q (matacc_cache32 E KYBER_K m i transposed).r.coeffs
        (padd (padd (rowProd E gen mul m i transposed 0) (rowProd E gen mul m i transposed 1))
          (rowProd E gen mul m i transposed 2))) ∧
    ((∀ j, j < KYBER_K → m.b_prime.slot j = tr E.zetas (m.b.slot j)) →
      (opt_first E i transposed m).r_tmp = rowProd E gen mul m i transposed 0 ∧
      (opt_loop E KYBER_K i transposed (opt_first E i transposed m)).2.r_tmp =
        padd (rowProd E gen mul m i transposed 0) (rowProd E gen mul m i transposed 1) ∧
      (matacc_opt32 E KYBER_K m i transposed).r.coeffs =
        (padd (padd (rowProd E gen mul m i transposed 0) (rowProd E gen mul m i transposed 1))
          (rowProd E gen mul m i transposed 2)).map red ∧
      CongrMod q (matacc_opt32 E KYBER_K m i transposed).r.coeffs
        (padd (padd (rowProd E gen mul m i transposed 0) (rowProd E gen mul m i transposed 1))
          (rowProd E gen mul m i transposed 2))) := by
  have hP : ∀ j, j < KYBER_K → BoundedBy B (rowProd E gen mul m i transposed j) :=
    fun j hj => hprod _ _ _ (hb j hj)
  obtain ⟨-, -, -, i0, i1, i2⟩ := three_products_exact B _ _ _
    (hP 0 (by decide)) (hP 1 (by decide)) (hP 2 (by decide)) hfit
  have hc := cache_run3 E hS gen mul red hgen hC m i transposed i0 i1 i2
  refine ⟨⟨hc.1, hc.2.1, hc.2.2, ?_⟩, ?_⟩
  · rw [KYBER_K, hc.2.2]
    exact congrMod_map q red hred _
  · intro hslots
    have ho := opt_run3 E hS gen mul tr red hgen hO m i transposed
      (hslots 0 (by decide)) (hslots 1 (by decide)) (hslots 2 (by decide)) i0 i1 i2
    refine ⟨ho.1, ho.2.1, ho.2.2, ?_⟩
    rw [KYBER_K, ho.2.2]
    exact congrMod_map q red hred _

theorem abs_mul_le_of_le (A B x y : Int) (hx : |x| ≤ A) (hy : |y| ≤ B) : |x * y| ≤ A * B := by
  rw [abs_mul]
  exact mul_le_mul hx hy (abs_nonneg y) (le_trans (abs_nonneg x) hx)

/-- Coefficients of a product, for a polynomial bounded by `A` and a vector element and
transformed copy bounded by `Bb`. -/
theorem basemul_bounded_by (A Bb : Int) :
    ∀ a b bp : List Int, BoundedBy A a → BoundedBy Bb b → BoundedBy Bb bp →
      BoundedBy (2 * A * Bb) (basemul a b bp) := by
  intro a b bp
  induction a, b, bp using basemul.induct with
  | case1 a0 a1 as b0 b1 bs p ps ih =>
    intro ha hb hp
    have ha0 := ha a0 (by simp)
    have ha1 := ha a1 (by simp)
    have hb0 := hb b0 (by simp)
    have hb1 := hb b1 (by simp)
    have hp0 := hp p (by simp)
    have hrest := ih (fun z hz => ha z (by simp [hz])) (fun z hz => hb z (by simp [hz]))
      (fun z hz => hp z (by simp [hz]))
    intro z hz
    simp only [basemul, List.mem_cons] at hz
    rcases hz with rfl | rfl | hz
    · have := abs_add (a0 * b0) (a1 * p)
      have h1 := abs_mul_le_of_le A Bb a0 b0 ha0 hb0
      have h2 := abs_mul_le_of_le A Bb a1 p ha1 hp0
      linarith
    · have := abs_add (a0 * b1) (a1 * b0)
      have h1 := abs_mul_le_of_le A Bb a0 b1 ha0 hb1
      have h2 := abs_mul_le_of_le A Bb a1 b0 ha1 hb0
      linarith
    · exact hrest z hz
  | case2 a b bp hne =>
    intro _ _ _ z hz
    rw [basemul] at hz
    · simp at hz
    · exact hne

/-- In the model, with a sampler bounded by `q` and a vector element bounded by
`Bb ≥ q`, the coefficients of a product are at most `2 * q * Bb`. -/
theorem spec_mul_bounded (S : SpecParams) (hq : 0 < S.q) (Bb : Int) (hqb : S.q ≤ Bb)
    (hsample : ∀ blk st, BoundedBy S.q (S.sample blk st)) (buf : Bytes) (st : XofState)
    (b : List Int) (hb : BoundedBy Bb b) :
    BoundedBy (2 * S.q * Bb) (S.mul (S.gen buf st) b) :=
  basemul_bounded_by S.q Bb _ _ _ (hsample _ _) hb
    (fun x hx => le_trans (mulcache_bounded S hq _ _ x hx) hqb)

theorem toyOptMem_b_int16 (j : Nat) (hj : j < KYBER_K) :
    BoundedBy 32768 (toyOptMem.b.slot j) := by
  have h : j = 0 ∨ j = 1 ∨ j = 2 := by
    simp only [KYBER_K] at hj
    omega
  rcases h with rfl | rfl | rfl <;>
    simp [BoundedBy, toyOptMem, toyMem2, polyvec.slot, abs_le]

theorem toy_prod_bounded (buf : Bytes) (st : XofState) (b : List Int)
    (hb : BoundedBy 32768 b) :
    BoundedBy (2 * 3329 * 32768) (toyParams.mul (toyParams.gen buf st) b) :=
  spec_mul_bounded toyParams (by decide) 32768 (by decide) toy_sample_bounded buf st b hb

/-- C3 on the toy instance with the `int32_t` accumulator, for vector coefficients in the
`int16_t` range: the accumulator before the last stage is the exact sum of the first two
products, and the outputs of the cache run and of the opt run (fed a valid cache vector)
are congruent modulo 3329 to the exact sum of the three products. -/
theorem width_transition_witness :
    StreamContract toyExt ∧
    (∀ buf buf' st, SameBlock toyExt.XOF_BLOCKBYTES buf buf' →
      toyParams.gen buf st = toyParams.gen buf' st) ∧
    CacheAccumulates toyExt toyParams.gen toyParams.mul toyParams.red ∧
    OptAccumulates toyExt toyParams.gen toyParams.mul toyParams.mulcache toyParams.red ∧
    (∀ x, toyParams.red x ≡ x [ZMOD 3329]) ∧
    (∀ buf st b, BoundedBy 32768 b →
      BoundedBy (2 * 3329 * 32768) (toyParams.mul (toyParams.gen buf st) b)) ∧
    (3 * (2 * 3329 * 32768) ≤ (2 : Int) ^ 31 - 1) ∧
    (∀ j, j < KYBER_K → BoundedBy 32768 (toyOptMem.b.slot j)) ∧
    (cache_loop toyExt KYBER_K 1 0 (cache_first toyExt 1 0 toyOptMem)).2.r_tmp =
      padd (rowProd toyExt toyParams.gen toyParams.mul toyOptMem 1 0 0)
        (rowProd toyExt toyParams.gen toyParams.mul toyOptMem 1 0 1) ∧
    CongrMod 3329 (matacc_cache32 toyExt KYBER_K toyOptMem 1 0).r.coeffs
      (padd (padd (rowProd toyExt toyParams.gen toyParams.mul toyOptMem 1 0 0)
        (rowProd toyExt toyParams.gen toyParams.mul toyOptMem 1 0 1))
        (rowProd toyExt toyParams.gen toyParams.mul toyOptMem 1 0 2)) ∧
    CongrMod 3329 (matacc_opt32 toyExt KYBER_K toyOptMem 1 0).r.coeffs
      (padd (padd (rowProd toyExt toyParams.gen toyParams.mul toyOptMem 1 0 0)
        (rowProd toyExt toyParams.gen toyParams.mul toyOptMem 1 0 1))
        (rowProd toyExt toyParams.gen toyParams.mul toyOptMem 1 0 2)) :=
  ⟨specExtWith_stream _ toyParams toyParams_block,
    specParams_gen_block _ toyParams,
    specExt_cache_accumulates toyParams, specExt_opt_accumulates toyParams,
    red_modEq toyParams, toy_prod_bounded, by norm_num, toyOptMem_b_int16,
    (width_transition toyExt (specExtWith_stream _ toyParams toyParams_block)
      toyParams.gen toyParams.mul toyParams.mulcache toyParams.red 3329 32768
      (2 * 3329 * 32768)
      (specParams_gen_block _ toyParams) (specExt_cache_accumulates toyParams)
      (specExt_opt_accumulates toyParams) (red_modEq toyParams) toy_prod_bounded
      (by norm_num) toyOptMem 1 0 toyOptMem_b_int16).1.2.1,
    (width_transition toyExt (specExtWith_stream _ toyParams toyParams_block)
      toyParams.gen toyParams.mul toyParams.mulcache toyParams.red 3329 32768
      (2 * 3329 * 32768)
      (specParams_gen_block _ toyParams) (specExt_cache_accumulates toyParams)
      (specExt_opt_accumulates toyParams) (red_modEq toyParams) toy_prod_bounded
      (by norm_num) toyOptMem 1 0 toyOptMem_b_int16).1.2.2.2,
    ((width_transition toyExt (specExtWith_stream _ toyParams toyParams_block)
      toyParams.gen toyParams.mul toyParams.mulcache toyParams.red 3329 32768
      (2 * 3329 * 32768)
      (specParams_gen_block _ toyParams) (specExt_cache_accumulates toyParams)
      (specExt_opt_accumulates toyParams) (red_modEq toyParams) toy_prod_bounded
      (by norm_num) toyOptMem 1 0 toyOptMem_b_int16).2 toyOptMem_slots).2.2.2⟩

/-! ## Zero vector (C6) -/

theorem cache_zero3 (E : Ext) (gen : Bytes → XofState → List Int)
    (mul : List Int → List Int → List Int) (red : Int → Int) (N : Nat)
    (hC : CacheAccumulates E gen mul red)
    (hmul0 : ∀ buf st, mul (gen buf st) (List.replicate N 0) = List.replicate N 0)
    (hred0 : red 0 = 0) (m : Mem) (i : Nat) (t : Int) (hb : m.b = zeroVec 3 N) :
    (matacc_cache32 E 3 m i t).r = zeroPoly N := by
  have hz : ∀ j, j < 3 → m.b.slot j = List.replicate N 0 := fun j hj => by
    rw [hb]; exact zeroVec_slot 3 N j hj
  have z0 := inInt32_zero N
  have h1 : (cache_first E i t m).r_tmp = List.replicate N 0 := by
    simp only [cache_first, call_cache_16_32, draw_b, hz 0 (by decide)]
    rw [hC.first, hmul0]
    rw [hmul0]
    exact z0
  have b1 : (cache_first E i t m).b = m.b := by
    simp only [cache_first, call_cache_16_32, draw_b]
  have h2 : (call_cache_32_32 E 1 (draw E i t 1 (cache_first E i t m))).r_tmp =
      List.replicate N 0 := by
    simp only [call_cache_32_32, draw_b, draw_r_tmp, b1, h1, hz 1 (by decide)]
    rw [hC.middle, hmul0, padd_zero]
    · exact z0
    · rw [hmul0, padd_zero]
      exact z0
  have b2 : (call_cache_32_32 E 1 (draw E i t 1 (cache_first E i t m))).b = m.b := by
    simp only [call_cache_32_32, draw_b, b1]
  rw [cache3_unfold]
  simp only [call_cache_32_16, draw_b, draw_r_tmp, b2, h2, hz 2 (by decide), zeroPoly,
    poly.mk.injEq]
  rw [hC.last, hmul0, padd_zero, List.map_replicate, hred0]
  · exact z0
  · rw [hmul0, padd_zero]
    exact z0

theorem opt_zero3 (E : Ext) (gen : Bytes → XofState → List Int)
    (mul : List Int → List Int → List Int) (tr : List Int → List Int → List Int)
    (red : Int → Int) (N : Nat) (hO : OptAccumulates E gen mul tr red)
    (hmul0 : ∀ buf st, mul (gen buf st) (List.replicate N 0) = List.replicate N 0)
    (hred0 : red 0 = 0) (m : Mem) (i : Nat) (t : Int) (hb : m.b = zeroVec 3 N)
    (hslots : ∀ j, j < 3 → m.b_prime.slot j = tr E.zetas (List.replicate N 0)) :
    (matacc_opt32 E 3 m i t).r = zeroPoly N := by
  have hz : ∀ j, j < 3 → m.b.slot j = List.replicate N 0 := fun j hj => by
    rw [hb]; exact zeroVec_slot 3 N j hj
  have z0 := inInt32_zero N
  have h1 : (opt_first E i t m).r_tmp = List.replicate N 0 := by
    simp only [opt_first, call_opt_16_32, draw_b, draw_b_prime, hz 0 (by decide),
      hslots 0 (by decide)]
    rw [hO.first, hmul0]
    rw [hmul0]
    exact z0
  have b1 : (opt_first E i t m).b = m.b := by
    simp only [opt_first, call_opt_16_32, draw_b]
  have p1 : (opt_first E i t m).b_prime = m.b_prime := by
    simp only [opt_first, call_opt_16_32, draw_b_prime]
  have h2 : (call_opt_32_32 E 1 (draw E i t 1 (opt_first E i t m))).r_tmp =
      List.replicate N 0 := by
    simp only [call_opt_32_32, draw_b, draw_b_prime, draw_r_tmp, b1, p1, h1,
      hz 1 (by decide), hslots 1 (by decide)]
    rw [hO.middle, hmul0, padd_zero]
    · exact z0
    · rw [hmul0, padd_zero]
      exact z0
  have b2 : (call_opt_32_32 E 1 (draw E i t 1 (opt_first E i t m))).b = m.b := by
    simp only [call_opt_32_32, draw_b, b1]
  have p2 : (call_opt_32_32 E 1 (draw E i t 1 (opt_first E i t m))).b_prime = m.b_prime := by
    simp only [call_opt_32_32, draw_b_prime, p1]
  rw [opt3_unfold]
  simp only [call_opt_32_16, draw_b, draw_b_prime, draw_r_tmp, b2, p2, h2, hz 2 (by decide),
    hslots 2 (by decide), zeroPoly, poly.mk.injEq]
  rw [hO.last, hmul0, padd_zero, List.map_replicate, hred0]
  · exact z0
  · rw [hmul0, padd_zero]
    exact z0

/-- C6: for rank `KYBER_K = 3`, with kernels that meet the multiply-accumulate-reduce
contract for the `int32_t` accumulator (where the product with the zero polynomial is
the zero polynomial and zero reduces to zero) and a vector of three zero polynomials,
the output polynomial of `matacc_cache32` is the zero polynomial, and so is the output
polynomial of `matacc_opt32` fed the cache vector that a run of `matacc_cache32` on the
zero vector produced; for every seed (so for the seed of 32 zero bytes), every row index
and both values of `transposed`. -/
theorem zero_vector (E : Ext) (gen : Bytes → XofState → List Int)
    (mul : List Int → List Int → List Int) (tr : List Int → List Int → List Int)
    (red : Int → Int) (N : Nat)
    (hC : CacheAccumulates E gen mul red) (hO : OptAccumulates E gen mul tr red)
    (hT : CacheWritesTransform E tr)
    (hmul0 : ∀ buf st, mul (gen buf st) (List.replicate N 0) = List.replicate N 0)
    (hred0 : red 0 = 0) (m1 m2 : Mem) (i i' : Nat) (transposed transposed' : Int)
    (hb1 : m1.b = zeroVec KYBER_K N) (hb2 : m2.b = zeroVec KYBER_K N)
    (hlen : KYBER_K ≤ m1.b_prime.vec.length)
    (hbp : m2.b_prime = (matacc_cache32 E KYBER_K m1 i' transposed').b_prime) :
    (matacc_cache32 E KYBER_K m1 i transposed).r = zeroPoly N ∧
    (matacc_opt32 E KYBER_K m2 i transposed).r = zeroPoly N := by
  refine ⟨cache_zero3 E gen mul red N hC hmul0 hred0 m1 i transposed hb1,
    opt_zero3 E gen mul tr red N hO hmul0 hred0 m2 i transposed hb2 ?_⟩
  intro j hj
  have h := cache_slots E 3 (by decide) tr hT m1 i' transposed' hlen
  rw [hbp]
  have h2 := h.2.2.1 j hj
  rw [hb1, zeroVec_slot KYBER_K N j hj] at h2
  exact h2

/-- C6 on the toy instance with the `int32_t` accumulator (polynomials of 4 coefficients,
seed of 32 zero bytes): zero output for the cache run (row 1, not transposed) and for the
opt run fed the cache vector of a cache run on the zero vector. -/
theorem zero_vector_witness :
    CacheAccumulates toyExt toyParams.gen toyParams.mul toyParams.red ∧
    OptAccumulates toyExt toyParams.gen toyParams.mul toyParams.mulcache toyParams.red ∧
    CacheWritesTransform toyExt toyParams.mulcache ∧
    (∀ buf st, toyParams.mul (toyParams.gen buf st) (List.replicate 4 0) =
      List.replicate 4 0) ∧
    toyParams.red 0 = 0 ∧
    toyZeroMem.seed = List.replicate 32 0 ∧ toyZeroOptMem.seed = List.replicate 32 0 ∧
    toyZeroMem.b = zeroVec KYBER_K 4 ∧ toyZeroOptMem.b = zeroVec KYBER_K 4 ∧
    KYBER_K ≤ toyZeroMem.b_prime.vec.length ∧
    toyZeroOptMem.b_prime = (matacc_cache32 toyExt KYBER_K toyZeroMem 2 1).b_prime ∧
    (matacc_cache32 toyExt KYBER_K toyZeroMem 1 0).r = zeroPoly 4 ∧
    (matacc_opt32 toyExt KYBER_K toyZeroOptMem 1 0).r = zeroPoly 4 :=
  ⟨specExt_cache_accumulates toyParams, specExt_opt_accumulates toyParams,
    specExtWith_writes_transform _ toyParams, toy_mul_zero, rfl, rfl, rfl, rfl, rfl,
    by decide, rfl,
    (zero_vector toyExt toyParams.gen toyParams.mul toyParams.mulcache toyParams.red 4
      (specExt_cache_accumulates toyParams) (specExt_opt_accumulates toyParams)
      (specExtWith_writes_transform _ toyParams) toy_mul_zero rfl toyZeroMem toyZeroOptMem
      1 2 0 1 rfl rfl (by decide) rfl).1,
    (zero_vector toyExt toyParams.gen toyParams.mul toyParams.mulcache toyParams.red 4
      (specExt_cache_accumulates toyParams) (specExt_opt_accumulates toyParams)
      (specExtWith_writes_transform _ toyParams) toy_mul_zero rfl toyZeroMem toyZeroOptMem
      1 2 0 1 rfl rfl (by decide) rfl).2⟩

end Matacc
